import Mathlib

/-!
Game of Life update engine (Lab2/code/main.cpp)

A shallow embedding of the cellular-automaton core of `src/Lab2/code/main.cpp`:
the global configuration, the command-line parser, the neighbour count, the
sequential update, the two parallel strategies and the benchmark window of the
game loop.

Conventions of the embedding.

* `int` is modelled by `Int`.  The grid quantities that the theorems below
  compute stay far inside the 32-bit range (cells are 0/1, a neighbour count is
  at most 8), so no wrap-around is modelled for them; the generation counter
  grows without bound, and its increment past `INT_MAX` is undefined.
* `std::vector<std::vector<int>>` is `List (List Int)`, outer index `y`, inner
  index `x`, as in `grid[y][x]`.
* An operation with undefined or aborting behaviour in C++ (an out-of-range
  `operator[]`, a vector constructed with a negative size, an integer division
  by zero, `std::stoi` throwing, the increment of `INT_MAX`) yields `none`.
* The globals of the translation unit are the fields of `Globals`; functions
  that read them take a `Globals` argument, functions that assign them return
  the new record.
-/

namespace GameOfLife

/-! ## Data model -/

/-- The grid type `std::vector<std::vector<int>>`: a list of rows. -/
abbrev Grid := List (List Int)

/-- The global variables of main.cpp (lines 14-20) with their initialisers;
`grid_width` and `grid_height` have static storage and start at zero. -/
structure Globals where
  num_threads : Int := 8
  cell_size : Int := 5
  window_width : Int := 800
  window_height : Int := 600
  grid_width : Int := 0
  grid_height : Int := 0
  processing_type : String := "THRD"
deriving DecidableEq, Repr

/-- The read `grid[y][x]`; `none` when an index is out of range. -/
def readCell (grid : Grid) (x y : Int) : Option Int :=
  if 0 ≤ x ∧ 0 ≤ y then
    match grid[y.toNat]? with
    | some row => row[x.toNat]?
    | none => none
  else none

/-- The assignment `newGrid[y][x] = v`; `none` when an index is out of range. -/
def writeCell (newGrid : Grid) (x y : Int) (v : Int) : Option Grid :=
  if 0 ≤ x ∧ 0 ≤ y then
    match newGrid[y.toNat]? with
    | some row =>
      if x.toNat < row.length then some (newGrid.set y.toNat (row.set x.toNat v)) else none
    | none => none
  else none

/-- The constructor call `std::vector<std::vector<int>>(h, std::vector<int>(w, 0))`;
a negative size makes the constructor throw. -/
def mkGrid (h w : Int) : Option Grid :=
  if 0 ≤ h ∧ 0 ≤ w then some (List.replicate h.toNat (List.replicate w.toNat 0)) else none

/-- The values taken by `v` in `for (int v = lo; v < hi; ++v)`. -/
def intRange (lo hi : Int) : List Int :=
  (List.range (hi - lo).toNat).map (fun (n : Nat) => lo + (n : Int))

/-! ## Neighbour rule -/

/-- The body of the inner loop of `countLiveNeighbors` (lines 64-69) at offset
`(dx, dy)`: skip the cell itself, check the bounds against the global
dimensions, add `grid[ny][nx]` to `count`. -/
def neighborStep (gl : Globals) (grid : Grid) (x y dx : Int) (count dy : Int) : Option Int :=
  if dx = 0 ∧ dy = 0 then some count
  else
    let nx := x + dx
    let ny := y + dy
    if nx ≥ 0 ∧ nx < gl.grid_width ∧ ny ≥ 0 ∧ ny < gl.grid_height then
      (readCell grid nx ny).map (fun c => count + c)
    else some count

/-- The function `countLiveNeighbors` (lines 60-73): the loops over `dx` and
`dy` in -1..1 around the loop body, starting from `count = 0`. -/
def countLiveNeighbors (gl : Globals) (grid : Grid) (x y : Int) : Option Int :=
  (intRange (-1) 2).foldlM (fun count dx =>
    (intRange (-1) 2).foldlM (neighborStep gl grid x y dx) count) 0

/-- The body of the inner loop shared verbatim by `updateGrid` (lines 81-88),
`multithreadedProcessing` (lines 113-120) and `ompProcessing` (lines 140-147):
count the neighbours of `(x, y)` in `grid`, then store the next state of the
cell in `newGrid`. -/
def updateCell (gl : Globals) (grid newGrid : Grid) (x y : Int) : Option Grid := do
  let liveNeighbors ← countLiveNeighbors gl grid x y
  let cell ← readCell grid x y
  if cell = 1 then
    writeCell newGrid x y (if liveNeighbors = 2 ∨ liveNeighbors = 3 then 1 else 0)
  else
    writeCell newGrid x y (if liveNeighbors = 3 then 1 else 0)

/-- The loop `for (int x = 0; x < grid_width; ++x)` around the cell update. -/
def updateRow (gl : Globals) (grid newGrid : Grid) (y : Int) : Option Grid :=
  (intRange 0 gl.grid_width).foldlM (fun ng x => updateCell gl grid ng x y) newGrid

/-- The loop `for (int y = lo; y < hi; ++y)` around the row loop. -/
def updateRows (gl : Globals) (grid newGrid : Grid) (lo hi : Int) : Option Grid :=
  (intRange lo hi).foldlM (fun ng y => updateRow gl grid ng y) newGrid

/-! ## Execution strategies -/

/-- The function `updateGrid` (lines 76-92). -/
def updateGrid (gl : Globals) (grid : Grid) : Option Grid := do
  let newGrid ← mkGrid gl.grid_height gl.grid_width
  updateRows gl grid newGrid 0 gl.grid_height

/-- The function `sequentialProcessing` (lines 95-97); the result is the new
value of the in-out parameter `grid`. -/
def sequentialProcessing (gl : Globals) (grid : Grid) : Option Grid :=
  updateGrid gl grid

/-- The value of `start_row` in worker `i` (line 108). -/
def start_row (i rows_per_thread : Int) : Int :=
  i * rows_per_thread

/-- The value of `end_row` in worker `i` (line 109). -/
def end_row (gl : Globals) (num_threads i rows_per_thread : Int) : Int :=
  if i = num_threads - 1 then gl.grid_height else start_row i rows_per_thread + rows_per_thread

/-- The body of the thread lambda (lines 107-123) run by worker `i`. -/
def worker (gl : Globals) (grid : Grid) (num_threads rows_per_thread : Int)
    (newGrid : Grid) (i : Int) : Option Grid :=
  updateRows gl grid newGrid (start_row i rows_per_thread)
    (end_row gl num_threads i rows_per_thread)

/-- The worker indices spawned by `for (int i = 0; i < num_threads; ++i)`. -/
def spawned (num_threads : Int) : List Int :=
  intRange 0 num_threads

/-- The function `multithreadedProcessing` (lines 100-131).  The threads run
concurrently; `order` is the order in which the workers take effect on
`newGrid`, a rearrangement of `spawned num_threads`.  The result is the new
value of the in-out parameter `grid`. -/
def multithreadedProcessing (gl : Globals) (grid : Grid) (num_threads : Int)
    (order : List Int) : Option Grid := do
  let newGrid ← mkGrid gl.grid_height gl.grid_width
  if num_threads = 0 then none
  else
    let rows_per_thread := Int.tdiv gl.grid_height num_threads
    order.foldlM (worker gl grid num_threads rows_per_thread) newGrid

/-- The iteration space of the collapsed loop nest of `ompProcessing`
(lines 138-139), as pairs `(x, y)` in source order. -/
def ompIterations (gl : Globals) : List (Int × Int) :=
  (intRange 0 gl.grid_height).flatMap (fun y => (intRange 0 gl.grid_width).map (fun x => (x, y)))

/-- The function `ompProcessing` (lines 134-152).  The work-sharing construct
hands the iterations to the team in an unspecified order; `sched` is the order
in which they take effect, a rearrangement of `ompIterations`.  The
`num_threads` clause requires a positive value. -/
def ompProcessing (gl : Globals) (grid : Grid) (num_threads : Int)
    (sched : List (Int × Int)) : Option Grid := do
  let newGrid ← mkGrid gl.grid_height gl.grid_width
  if num_threads ≤ 0 then none
  else sched.foldlM (fun ng p => updateCell gl grid ng p.1 p.2) newGrid

/-! ## Grid predicates -/

/-- A grid with exactly `grid_height` rows of exactly `grid_width` cells. -/
def WellFormed (gl : Globals) (g : Grid) : Prop :=
  0 ≤ gl.grid_height ∧ 0 ≤ gl.grid_width ∧ (g.length : Int) = gl.grid_height ∧
    ∀ row ∈ g, (row.length : Int) = gl.grid_width

/-- Every cell is 0 (dead) or 1 (alive). -/
def Binary (g : Grid) : Prop :=
  ∀ row ∈ g, ∀ c ∈ row, c = 0 ∨ c = 1

instance (gl : Globals) (g : Grid) : Decidable (WellFormed gl g) := by
  unfold WellFormed; infer_instance

instance (g : Grid) : Decidable (Binary g) := by
  unfold Binary; infer_instance

/-- The position `(x, y)` lies inside `[0, grid_width) x [0, grid_height)`. -/
def InBounds (gl : Globals) (x y : Int) : Prop :=
  0 ≤ x ∧ x < gl.grid_width ∧ 0 ≤ y ∧ y < gl.grid_height

instance (gl : Globals) (x y : Int) : Decidable (InBounds gl x y) := by
  unfold InBounds; infer_instance

/-! ## Specification-side functions used by the proofs -/

/-- The total read used in statements: the stored cell, 0 where none is stored. -/
def cellD (grid : Grid) (x y : Int) : Int :=
  (readCell grid x y).getD 0

/-- The contribution of the neighbour at offset `(dx, dy)`: its cell when the
position passes the bounds check, 0 otherwise. -/
def nbr (gl : Globals) (grid : Grid) (x y dx dy : Int) : Int :=
  if InBounds gl (x + dx) (y + dy) then cellD grid (x + dx) (y + dy) else 0

/-- The sum of the eight neighbour contributions, in the order of the loops. -/
def liveCount (gl : Globals) (grid : Grid) (x y : Int) : Int :=
  nbr gl grid x y (-1) (-1) + nbr gl grid x y (-1) 0 + nbr gl grid x y (-1) 1 +
  nbr gl grid x y 0 (-1) + nbr gl grid x y 0 1 +
  nbr gl grid x y 1 (-1) + nbr gl grid x y 1 0 + nbr gl grid x y 1 1

/-- The value stored for the cell `(x, y)` by one generation. -/
def nextCell (gl : Globals) (grid : Grid) (x y : Int) : Int :=
  if cellD grid x y = 1 then
    (if liveCount gl grid x y = 2 ∨ liveCount gl grid x y = 3 then 1 else 0)
  else (if liveCount gl grid x y = 3 then 1 else 0)

/-- The cells visited by the row loop over `[lo, hi)` with the full column loop. -/
def rowCells (gl : Globals) (lo hi : Int) : List (Int × Int) :=
  (intRange lo hi).flatMap (fun y => (intRange 0 gl.grid_width).map (fun x => (x, y)))

/-- Worker `i` of `num_threads` owns row `y`: `start_row <= y < end_row` with
`rows_per_thread = grid_height / num_threads` as computed at line 104. -/
def owns (gl : Globals) (num_threads i y : Int) : Prop :=
  start_row i (Int.tdiv gl.grid_height num_threads) ≤ y ∧
    y < end_row gl num_threads i (Int.tdiv gl.grid_height num_threads)

instance (gl : Globals) (num_threads i y : Int) : Decidable (owns gl num_threads i y) := by
  unfold owns; infer_instance

/-- The eight offsets `(dx, dy)` of {-1,0,1}^2 without `(0, 0)`. -/
def neighbourOffsets : List (Int × Int) :=
  [(-1, -1), (-1, 0), (-1, 1), (0, -1), (0, 1), (1, -1), (1, 0), (1, 1)]

/-- Following the words of the boundary-clipping property: the number of live
cells among the positions `(x + dx, y + dy)` that lie inside the grid. -/
def liveNeighboursInside (gl : Globals) (grid : Grid) (x y : Int) : Nat :=
  neighbourOffsets.countP (fun d =>
    decide (InBounds gl (x + d.1) (y + d.2) ∧ readCell grid (x + d.1) (y + d.2) = some 1))

/-! ## Command line and start-up -/

/-- The loop of `parseCommandLine` (lines 25-43) over the arguments from
`argv[i]` on.  An option is recognised only when a value follows it
(`i + 1 < argc`) and then consumes that value; any other argument is skipped.
`stoi` stands for `std::stoi`, `none` for a thrown exception. -/
def parseArgs (stoi : String → Option Int) : List String → Globals → Option Globals
  | [], gl => some gl
  | [_], gl => some gl
  | arg :: v :: rest, gl =>
    if arg = "-n" then
      match stoi v with
      | some n => parseArgs stoi rest { gl with num_threads := if n < 2 then 8 else n }
      | none => none
    else if arg = "-c" then
      match stoi v with
      | some n => parseArgs stoi rest { gl with cell_size := if n < 1 then 5 else n }
      | none => none
    else if arg = "-x" then
      match stoi v with
      | some n => parseArgs stoi rest { gl with window_width := n }
      | none => none
    else if arg = "-y" then
      match stoi v with
      | some n => parseArgs stoi rest { gl with window_height := n }
      | none => none
    else if arg = "-t" then
      parseArgs stoi rest { gl with processing_type :=
        if v ≠ "SEQ" ∧ v ≠ "THRD" ∧ v ≠ "OMP" then "THRD" else v }
    else parseArgs stoi (v :: rest) gl

/-- The function `parseCommandLine` (lines 24-45): the loop from `argv[1]` on,
then the override of the worker count for the sequential strategy. -/
def parseCommandLine (stoi : String → Option Int) (argv : List String) (gl : Globals) :
    Option Globals :=
  match parseArgs stoi argv.tail gl with
  | some gl1 => some (if gl1.processing_type = "SEQ" then { gl1 with num_threads := 1 } else gl1)
  | none => none

/-- The start of `main` (lines 172-176): parse the command line from the
initial globals, then derive the grid dimensions by integer division. -/
def mainSetup (stoi : String → Option Int) (argv : List String) : Option Globals :=
  match parseCommandLine stoi argv {} with
  | some gl =>
    if gl.cell_size = 0 then none
    else some { gl with
      grid_width := Int.tdiv gl.window_width gl.cell_size
      grid_height := Int.tdiv gl.window_height gl.cell_size }
  | none => none

/-- The value of a run of decimal digits, `none` when a character is no digit. -/
def digitsValue : List Char → Nat → Option Nat
  | [], acc => some acc
  | c :: cs, acc =>
    if 48 ≤ c.toNat ∧ c.toNat ≤ 57 then digitsValue cs (10 * acc + (c.toNat - 48)) else none

/-- A stand-in for `std::stoi` on plain decimal numerals (an optional minus
sign, then one or more digits), used to run the parser on concrete command
lines; the theorems about the parser hold for every `stoi`. -/
def stoiDecimal (s : String) : Option Int :=
  match s.data with
  | [] => none
  | c :: cs =>
    if c = '-' then
      (if cs = [] then none else (digitsValue cs 0).map (fun n => -(n : Int)))
    else (digitsValue (c :: cs) 0).map (fun n => (n : Int))

/-- The options with their values as the parser scans them: a recognised
option followed by an argument pairs with it, anything else is skipped. -/
def optionPairs : List String → List (String × String)
  | [] => []
  | [_] => []
  | arg :: v :: rest =>
    if arg = "-n" ∨ arg = "-c" ∨ arg = "-x" ∨ arg = "-y" ∨ arg = "-t" then
      (arg, v) :: optionPairs rest
    else optionPairs (v :: rest)

/-- The value carried by the last occurrence of the option `flag`. -/
def lastValue (flag : String) : List (String × String) → Option String
  | [] => none
  | p :: rest =>
    match lastValue flag rest with
    | some w => some w
    | none => if p.1 = flag then some p.2 else none

/-- Every value of a numeric option (`-n`, `-c`, `-x`, `-y`) parses as an integer. -/
def NumericOK (stoi : String → Option Int) (args : List String) : Prop :=
  ∀ p ∈ optionPairs args, p.1 ≠ "-t" → (stoi p.2).isSome = true

instance (stoi : String → Option Int) (args : List String) : Decidable (NumericOK stoi args) := by
  unfold NumericOK; infer_instance

/-- The strategy selector named by a scanned option list: the value of the last
`-t` option when it is one of the three names, "THRD" when it is another
string, and `dflt` when there is no `-t` option. -/
def selectedType (opts : List (String × String)) (dflt : String) : String :=
  match lastValue "-t" opts with
  | some v => if v ≠ "SEQ" ∧ v ≠ "THRD" ∧ v ≠ "OMP" then "THRD" else v
  | none => dflt

/-- The effect of one scanned option on the globals, used to read the parser
loop as a fold over `optionPairs`. -/
def applyOption (stoi : String → Option Int) (gl : Globals) (p : String × String) :
    Option Globals :=
  if p.1 = "-n" then
    (stoi p.2).map (fun n => { gl with num_threads := if n < 2 then 8 else n })
  else if p.1 = "-c" then
    (stoi p.2).map (fun n => { gl with cell_size := if n < 1 then 5 else n })
  else if p.1 = "-x" then
    (stoi p.2).map (fun n => { gl with window_width := n })
  else if p.1 = "-y" then
    (stoi p.2).map (fun n => { gl with window_height := n })
  else if p.1 = "-t" then
    some { gl with processing_type :=
      if p.2 ≠ "SEQ" ∧ p.2 ≠ "THRD" ∧ p.2 ≠ "OMP" then "THRD" else p.2 }
  else some gl

/-! ## Benchmark window of the game loop -/

/-- The largest value of the C++ type `int`. -/
def INT_MAX : Int := 2147483647

/-- The readings of `high_resolution_clock::now()` available to one iteration
of the game loop, in clock ticks: the one taken at line 210 (`end`) and the one
taken at line 223 (the new `start`). -/
structure Readings where
  at_end : Int
  at_reset : Int
deriving DecidableEq, Repr

/-- The locals of `main` used by the benchmark (lines 183-184): the generation
counter and the start of the current timing window. -/
structure LoopState where
  generations : Int
  start : Int
deriving DecidableEq, Repr

/-- One printed benchmark line (lines 213-221): the elapsed ticks `end - start`
of the window that closed. -/
structure Report where
  elapsed : Int
deriving DecidableEq, Repr

/-- The benchmark part of one iteration of the game loop (lines 206-224):
`generations++`, then on `generations % 100 == 0` the report and the reset of
`start`.  Event polling, grid processing and display (lines 188-204) touch
neither `generations` nor `start`.  Incrementing `INT_MAX` is a signed
overflow, modelled as `none`. -/
def benchStep (s : LoopState) (c : Readings) : Option (LoopState × Option Report) :=
  if s.generations = INT_MAX then none
  else
    let generations := s.generations + 1
    if Int.tmod generations 100 = 0 then
      some ({ generations := generations, start := c.at_reset },
        some { elapsed := c.at_end - s.start })
    else some ({ generations := generations, start := s.start }, none)

/-- The game loop (lines 187-228) from the state `s`, one iteration per entry
of `clock`; the window is closed from outside, which fixes the number of
iterations.  The result is the state after the last iteration. -/
def gameLoop (s : LoopState) (clock : List Readings) : Option LoopState :=
  clock.foldlM (fun st c => (benchStep st c).map (fun p => p.1)) s

/-- The state of `main` on entry to the game loop (lines 183-184), `t0` being
the first reading of the clock. -/
def loopStart (t0 : Int) : LoopState :=
  { generations := 0, start := t0 }

/-- Following the words of the benchmark-window property: the generation
counter, the generations since the last report, and the window start time. -/
structure WindowState where
  generation : Nat
  window : Nat
  windowStart : Int
deriving DecidableEq, Repr

/-- Following the words of the benchmark-window property: a generation is
committed; when that makes exactly 100 since the last report, a report is
emitted, the window counter returns to 0 and the window start time becomes the
current clock reading; otherwise the counter grows and the start time stays. -/
def windowStep (w : WindowState) (c : Readings) : WindowState × Option Report :=
  if w.window + 1 = 100 then
    ({ generation := w.generation + 1, window := 0, windowStart := c.at_reset },
      some { elapsed := c.at_end - w.windowStart })
  else
    ({ generation := w.generation + 1, window := w.window + 1, windowStart := w.windowStart },
      none)

/-- The window model run over one clock entry per iteration. -/
def windowRun (w : WindowState) (clock : List Readings) : WindowState :=
  clock.foldl (fun st c => (windowStep st c).1) w

/-- The window model at the start of the game loop. -/
def windowInit (t0 : Int) : WindowState :=
  { generation := 0, window := 0, windowStart := t0 }

/-- The window model `w` describes the loop state `s`: same generation count,
same window start, and the window counter is the generation count modulo 100. -/
def Tracks (s : LoopState) (w : WindowState) : Prop :=
  (w.generation : Int) = s.generations ∧ w.window = w.generation % 100 ∧
    w.windowStart = s.start

instance (s : LoopState) (w : WindowState) : Decidable (Tracks s w) := by
  unfold Tracks; infer_instance

/-! ## Reads, writes and loops -/

theorem mem_intRange (lo hi v : Int) : v ∈ intRange lo hi ↔ lo ≤ v ∧ v < hi := by
  unfold intRange
  simp only [List.mem_map, List.mem_range]
  constructor
  · rintro ⟨n, hn, rfl⟩
    omega
  · intro h
    exact ⟨(v - lo).toNat, by omega, by omega⟩

theorem mem_rowCells (gl : Globals) (lo hi x y : Int) :
    (x, y) ∈ rowCells gl lo hi ↔ (lo ≤ y ∧ y < hi) ∧ 0 ≤ x ∧ x < gl.grid_width := by
  unfold rowCells
  simp only [List.mem_flatMap, List.mem_map, mem_intRange, Prod.mk.injEq]
  constructor
  · rintro ⟨b, hb, a, ha, rfl, rfl⟩
    exact ⟨hb, ha⟩
  · rintro ⟨hy, hx⟩
    exact ⟨y, hy, x, hx, rfl, rfl⟩

theorem readCell_inBounds (gl : Globals) (g : Grid) (x y : Int)
    (hg : WellFormed gl g) (hb : InBounds gl x y) :
    ∃ c, readCell g x y = some c := by
  obtain ⟨hH, hW, hlen, hrows⟩ := hg
  obtain ⟨hx0, hx1, hy0, hy1⟩ := hb
  have hy : y.toNat < g.length := by omega
  have hrow := hrows (g[y.toNat]) (List.getElem_mem hy)
  have hx : x.toNat < (g[y.toNat]).length := by omega
  refine ⟨(g[y.toNat])[x.toNat], ?_⟩
  simp [readCell, hx0, hy0, List.getElem?_eq_getElem hy, List.getElem?_eq_getElem hx]

theorem readCell_eq_cellD (gl : Globals) (g : Grid) (x y : Int)
    (hg : WellFormed gl g) (hb : InBounds gl x y) :
    readCell g x y = some (cellD g x y) := by
  obtain ⟨c, hc⟩ := readCell_inBounds gl g x y hg hb
  simp [cellD, hc]

theorem writeCell_inBounds (gl : Globals) (ng : Grid) (x y v : Int)
    (hg : WellFormed gl ng) (hb : InBounds gl x y) :
    ∃ ng', writeCell ng x y v = some ng' ∧ WellFormed gl ng' ∧
      ∀ x' y', readCell ng' x' y' =
        if x' = x ∧ y' = y then some v else readCell ng x' y' := by
  obtain ⟨hH, hW, hlen, hrows⟩ := hg
  obtain ⟨hx0, hx1, hy0, hy1⟩ := hb
  have hy : y.toNat < ng.length := by omega
  have hrow := hrows (ng[y.toNat]) (List.getElem_mem hy)
  have hx : x.toNat < (ng[y.toNat]).length := by omega
  refine ⟨ng.set y.toNat ((ng[y.toNat]).set x.toNat v), ?_, ?_, ?_⟩
  · simp [writeCell, hx0, hy0, List.getElem?_eq_getElem hy, hx]
  · refine ⟨hH, hW, by simpa using hlen, ?_⟩
    intro row hmem
    rcases List.mem_or_eq_of_mem_set hmem with h | h
    · exact hrows row h
    · subst h; simpa using hrow
  · intro x' y'
    unfold readCell
    by_cases hn : 0 ≤ x' ∧ 0 ≤ y'
    · obtain ⟨hx'0, hy'0⟩ := hn
      by_cases hyy : y' = y
      · subst hyy
        by_cases hxx : x' = x
        · subst hxx
          simp [hx0, hy0, List.getElem?_set, hy, hx]
        · have : x.toNat ≠ x'.toNat := by omega
          simp [hx'0, hy0, List.getElem?_set, hy, hxx, this, List.getElem?_eq_getElem hy]
      · have : y.toNat ≠ y'.toNat := by omega
        simp [hx'0, hy'0, List.getElem?_set, hyy, this]
    · have : ¬ (x' = x ∧ y' = y) := by omega
      simp [hn, this]

theorem intRange_offsets : intRange (-1) 2 = [-1, 0, 1] := by decide

theorem neighborStep_eq (gl : Globals) (g : Grid) (x y dx count dy : Int)
    (hg : WellFormed gl g) :
    neighborStep gl g x y dx count dy =
      some (if dx = 0 ∧ dy = 0 then count else count + nbr gl g x y dx dy) := by
  unfold neighborStep nbr
  by_cases hd : dx = 0 ∧ dy = 0
  · rw [if_pos hd, if_pos hd]
  · rw [if_neg hd, if_neg hd]
    by_cases hb : InBounds gl (x + dx) (y + dy)
    · have hb' : x + dx ≥ 0 ∧ x + dx < gl.grid_width ∧ y + dy ≥ 0 ∧ y + dy < gl.grid_height := hb
      simp only [if_pos hb', if_pos hb, readCell_eq_cellD gl g _ _ hg hb, Option.map_some']
    · have hb' : ¬ (x + dx ≥ 0 ∧ x + dx < gl.grid_width ∧ y + dy ≥ 0 ∧ y + dy < gl.grid_height) := hb
      simp only [if_neg hb', if_neg hb, add_zero]

theorem countLiveNeighbors_eq (gl : Globals) (g : Grid) (x y : Int) (hg : WellFormed gl g) :
    countLiveNeighbors gl g x y = some (liveCount gl g x y) := by
  unfold countLiveNeighbors liveCount
  rw [intRange_offsets]
  simp only [List.foldlM_cons, List.foldlM_nil, neighborStep_eq gl g x y _ _ _ hg,
    Option.some_bind, Option.bind_eq_bind, pure]
  simp

theorem updateCell_inBounds (gl : Globals) (g ng : Grid) (x y : Int)
    (hg : WellFormed gl g) (hn : WellFormed gl ng) (hb : InBounds gl x y) :
    ∃ ng', updateCell gl g ng x y = some ng' ∧ WellFormed gl ng' ∧
      ∀ x' y', readCell ng' x' y' =
        if x' = x ∧ y' = y then some (nextCell gl g x y) else readCell ng x' y' := by
  unfold updateCell nextCell
  simp only [countLiveNeighbors_eq gl g x y hg, readCell_eq_cellD gl g x y hg hb,
    Option.some_bind, Option.bind_eq_bind]
  by_cases hc : cellD g x y = 1
  · simp only [if_pos hc]
    exact writeCell_inBounds gl ng x y _ hn hb
  · simp only [if_neg hc]
    exact writeCell_inBounds gl ng x y _ hn hb

/-- Running the cell update over any list of in-bounds cells succeeds, keeps the
shape of the output grid, stores the next state at the listed cells and leaves
the other cells as they were. -/
theorem foldlM_updateCell (gl : Globals) (g : Grid) (hg : WellFormed gl g)
    (cells : List (Int × Int)) :
    ∀ ng : Grid, WellFormed gl ng → (∀ p ∈ cells, InBounds gl p.1 p.2) →
    ∃ ng', cells.foldlM (fun acc p => updateCell gl g acc p.1 p.2) ng = some ng' ∧
      WellFormed gl ng' ∧
      ∀ x' y', readCell ng' x' y' =
        if (x', y') ∈ cells then some (nextCell gl g x' y') else readCell ng x' y' := by
  induction cells with
  | nil =>
    intro ng hn _
    exact ⟨ng, rfl, hn, by simp⟩
  | cons p rest ih =>
    intro ng hn hall
    obtain ⟨ng1, h1, hw1, hr1⟩ :=
      updateCell_inBounds gl g ng p.1 p.2 hg hn (hall p (List.mem_cons_self _ _))
    obtain ⟨ng2, h2, hw2, hr2⟩ :=
      ih ng1 hw1 (fun q hq => hall q (List.mem_cons_of_mem _ hq))
    refine ⟨ng2, ?_, hw2, ?_⟩
    · simp only [List.foldlM_cons, h1, Option.some_bind, Option.bind_eq_bind]
      exact h2
    · intro x' y'
      rw [hr2, hr1]
      by_cases hm : (x', y') ∈ rest
      · simp [hm]
      · by_cases hp : x' = p.1 ∧ y' = p.2
        · obtain ⟨rfl, rfl⟩ := hp
          simp
        · have hne : (x', y') ≠ p := by
            intro h; apply hp; rw [← h]; exact ⟨rfl, rfl⟩
          simp [hm, hp, hne]

theorem foldlM_flatMap_option {α β γ : Type} (f : α → List β) (step : γ → β → Option γ)
    (l : List α) (init : γ) :
    (l.flatMap f).foldlM step init = l.foldlM (fun acc a => (f a).foldlM step acc) init := by
  induction l generalizing init with
  | nil => rfl
  | cons a l ih =>
    simp only [List.flatMap_cons, List.foldlM_append, List.foldlM_cons]
    cases (f a).foldlM step init with
    | none => rfl
    | some v => simp [ih]

theorem updateRow_eq (gl : Globals) (g ng : Grid) (y : Int) :
    updateRow gl g ng y =
      ((intRange 0 gl.grid_width).map (fun x => (x, y))).foldlM
        (fun acc p => updateCell gl g acc p.1 p.2) ng := by
  unfold updateRow
  rw [List.foldlM_map]

theorem updateRows_eq (gl : Globals) (g ng : Grid) (lo hi : Int) :
    updateRows gl g ng lo hi =
      (rowCells gl lo hi).foldlM (fun acc p => updateCell gl g acc p.1 p.2) ng := by
  unfold updateRows rowCells
  rw [foldlM_flatMap_option]
  simp only [updateRow_eq]

theorem mkGrid_wellFormed (gl : Globals) (hH : 0 ≤ gl.grid_height) (hW : 0 ≤ gl.grid_width) :
    ∃ ng, mkGrid gl.grid_height gl.grid_width = some ng ∧ WellFormed gl ng ∧
      ∀ x y, InBounds gl x y → readCell ng x y = some 0 := by
  refine ⟨List.replicate gl.grid_height.toNat (List.replicate gl.grid_width.toNat 0), ?_, ?_, ?_⟩
  · simp [mkGrid, hH, hW]
  · refine ⟨hH, hW, by simp [hH], ?_⟩
    intro row hrow
    rw [(List.mem_replicate.mp hrow).2]
    simp [hW]
  · rintro x y ⟨hx0, hx1, hy0, hy1⟩
    have hy : y.toNat < gl.grid_height.toNat := by omega
    have hx : x.toNat < gl.grid_width.toNat := by omega
    simp [readCell, hx0, hy0, List.getElem?_replicate, hy, hx]

/-- Two grids of the same shape that agree on every in-bounds read are equal. -/
theorem grid_ext (gl : Globals) (a b : Grid) (ha : WellFormed gl a) (hb : WellFormed gl b)
    (h : ∀ x y, InBounds gl x y → readCell a x y = readCell b x y) : a = b := by
  obtain ⟨hH, hW, hla, hra⟩ := ha
  obtain ⟨_, _, hlb, hrb⟩ := hb
  apply List.ext_getElem (by omega)
  intro j h1 h2
  have hwa := hra _ (List.getElem_mem h1)
  have hwb := hrb _ (List.getElem_mem h2)
  apply List.ext_getElem (by omega)
  intro i h3 h4
  have := h (i : Int) (j : Int) ⟨by omega, by omega, by omega, by omega⟩
  simpa [readCell, List.getElem?_eq_getElem h1, List.getElem?_eq_getElem h2,
    List.getElem?_eq_getElem h3, List.getElem?_eq_getElem h4] using this

/-! ## Row partition of the thread strategy -/

theorem rows_per_thread_bounds (H k : Int) (hH : 0 ≤ H) (hk : 1 ≤ k) :
    0 ≤ Int.tdiv H k ∧ Int.tdiv H k * k ≤ H := by
  have hk0 : 0 ≤ k := by omega
  rw [Int.tdiv_eq_ediv hH hk0]
  exact ⟨Int.ediv_nonneg hH hk0, Int.ediv_mul_le H (by omega)⟩

theorem owns_inside (gl : Globals) (k i y : Int) (hH : 0 ≤ gl.grid_height) (hk : 1 ≤ k)
    (hi : 0 ≤ i ∧ i < k) (ho : owns gl k i y) : 0 ≤ y ∧ y < gl.grid_height := by
  obtain ⟨hr0, hrk⟩ := rows_per_thread_bounds gl.grid_height k hH hk
  unfold owns end_row start_row at ho
  generalize Int.tdiv gl.grid_height k = r at *
  obtain ⟨h1, h2⟩ := ho
  have hs : 0 ≤ i * r := mul_nonneg hi.1 hr0
  by_cases hl : i = k - 1
  · rw [if_pos hl] at h2
    exact ⟨by omega, h2⟩
  · rw [if_neg hl] at h2
    have h3 : (i + 1) * r ≤ k * r := mul_le_mul_of_nonneg_right (by omega) hr0
    have h4 : (i + 1) * r = i * r + r := by ring
    have h5 : k * r = r * k := by ring
    exact ⟨by omega, by omega⟩

theorem owns_exists (gl : Globals) (k y : Int) (hk : 1 ≤ k)
    (hy : 0 ≤ y ∧ y < gl.grid_height) : ∃ i, (0 ≤ i ∧ i < k) ∧ owns gl k i y := by
  obtain ⟨hr0, hrk⟩ := rows_per_thread_bounds gl.grid_height k (by omega) hk
  unfold owns end_row start_row
  generalize Int.tdiv gl.grid_height k = r at *
  by_cases hsmall : y / r < k - 1 ∧ 0 < r
  · obtain ⟨hq, hr⟩ := hsmall
    refine ⟨y / r, ⟨Int.ediv_nonneg hy.1 hr0, by omega⟩, Int.ediv_mul_le y (by omega), ?_⟩
    rw [if_neg (by omega)]
    have := Int.lt_ediv_add_one_mul_self y hr
    have h4 : (y / r + 1) * r = y / r * r + r := by ring
    omega
  · refine ⟨k - 1, ⟨by omega, by omega⟩, ?_, ?_⟩
    · by_cases hr : 0 < r
      · have hq : k - 1 ≤ y / r := by
          by_contra hc
          exact hsmall ⟨by omega, hr⟩
        have h1 : (k - 1) * r ≤ y / r * r := mul_le_mul_of_nonneg_right hq hr0
        have h2 := Int.ediv_mul_le y (show r ≠ 0 by omega)
        omega
      · have : r = 0 := by omega
        subst this
        simpa using hy.1
    · rw [if_pos rfl]
      exact hy.2

theorem owns_unique (gl : Globals) (k i j y : Int) (hH : 0 ≤ gl.grid_height) (hk : 1 ≤ k)
    (hi : 0 ≤ i ∧ i < k) (hj : 0 ≤ j ∧ j < k)
    (hoi : owns gl k i y) (hoj : owns gl k j y) : i = j := by
  obtain ⟨hr0, hrk⟩ := rows_per_thread_bounds gl.grid_height k hH hk
  unfold owns end_row start_row at hoi hoj
  generalize Int.tdiv gl.grid_height k = r at *
  have key : ∀ a b : Int, a < b → b < k → a * r ≤ y →
      y < (if a = k - 1 then gl.grid_height else a * r + r) → b * r ≤ y → False := by
    intro a b hab hbk _ h2 h3
    rw [if_neg (by omega)] at h2
    have h4 : (a + 1) * r ≤ b * r := mul_le_mul_of_nonneg_right (by omega) hr0
    have h5 : (a + 1) * r = a * r + r := by ring
    omega
  rcases lt_trichotomy i j with h | h | h
  · exact (key i j h hj.2 hoi.1 hoi.2 hoj.1).elim
  · exact h
  · exact (key j i h hi.2 hoj.1 hoj.2 hoi.1).elim

/-! ## One generation, strategy by strategy -/

theorem run_covering (gl : Globals) (g : Grid) (hg : WellFormed gl g)
    (cells : List (Int × Int)) (hin : ∀ p ∈ cells, InBounds gl p.1 p.2)
    (hcov : ∀ x y, InBounds gl x y → (x, y) ∈ cells)
    (ng : Grid) (hn : WellFormed gl ng) :
    ∃ ng', cells.foldlM (fun acc p => updateCell gl g acc p.1 p.2) ng = some ng' ∧
      WellFormed gl ng' ∧
      ∀ x y, InBounds gl x y → readCell ng' x y = some (nextCell gl g x y) := by
  obtain ⟨ng', h1, h2, h3⟩ := foldlM_updateCell gl g hg cells ng hn hin
  refine ⟨ng', h1, h2, ?_⟩
  intro x y hb
  rw [h3, if_pos (hcov x y hb)]

theorem rowCells_inBounds (gl : Globals) (lo hi : Int) (hlo : 0 ≤ lo) (hhi : hi ≤ gl.grid_height) :
    ∀ p ∈ rowCells gl lo hi, InBounds gl p.1 p.2 := by
  rintro ⟨x, y⟩ hp
  rw [mem_rowCells] at hp
  exact ⟨hp.2.1, hp.2.2, by omega, by omega⟩

theorem updateGrid_spec (gl : Globals) (g : Grid) (hg : WellFormed gl g) :
    ∃ g', updateGrid gl g = some g' ∧ WellFormed gl g' ∧
      ∀ x y, InBounds gl x y → readCell g' x y = some (nextCell gl g x y) := by
  obtain ⟨ng, hmk, hn, _⟩ := mkGrid_wellFormed gl hg.1 hg.2.1
  unfold updateGrid
  simp only [hmk, Option.some_bind, Option.bind_eq_bind, updateRows_eq]
  apply run_covering gl g hg _ (rowCells_inBounds gl 0 _ le_rfl le_rfl) _ ng hn
  intro x y hb
  rw [mem_rowCells]
  exact ⟨⟨hb.2.2.1, hb.2.2.2⟩, hb.1, hb.2.1⟩

theorem worker_eq (gl : Globals) (g : Grid) (k r : Int) :
    worker gl g k r = fun ng i =>
      (rowCells gl (start_row i r) (end_row gl k i r)).foldlM
        (fun acc p => updateCell gl g acc p.1 p.2) ng := by
  funext ng i
  simp only [worker, updateRows_eq]

theorem multithreadedProcessing_spec (gl : Globals) (g : Grid) (k : Int) (order : List Int)
    (hg : WellFormed gl g) (hk : 1 ≤ k) (ho : order.Perm (spawned k)) :
    ∃ g', multithreadedProcessing gl g k order = some g' ∧ WellFormed gl g' ∧
      ∀ x y, InBounds gl x y → readCell g' x y = some (nextCell gl g x y) := by
  obtain ⟨ng, hmk, hn, _⟩ := mkGrid_wellFormed gl hg.1 hg.2.1
  have hmem : ∀ i, i ∈ order ↔ 0 ≤ i ∧ i < k := by
    intro i
    rw [ho.mem_iff]
    exact mem_intRange 0 k i
  unfold multithreadedProcessing
  simp only [hmk, Option.some_bind, Option.bind_eq_bind, if_neg (show ¬ k = 0 by omega),
    worker_eq, ← foldlM_flatMap_option]
  apply run_covering gl g hg _ _ _ ng hn
  · rintro ⟨x, y⟩ hp
    simp only [List.mem_flatMap, mem_rowCells] at hp
    obtain ⟨i, hi, hrow, hx⟩ := hp
    have := owns_inside gl k i y hg.1 hk ((hmem i).mp hi) hrow
    exact ⟨hx.1, hx.2, this.1, this.2⟩
  · intro x y hb
    obtain ⟨i, hi, hrow⟩ := owns_exists gl k y hk ⟨hb.2.2.1, hb.2.2.2⟩
    simp only [List.mem_flatMap, mem_rowCells]
    exact ⟨i, (hmem i).mpr hi, hrow, hb.1, hb.2.1⟩

theorem ompProcessing_spec (gl : Globals) (g : Grid) (k : Int) (sched : List (Int × Int))
    (hg : WellFormed gl g) (hk : 1 ≤ k) (hs : sched.Perm (ompIterations gl)) :
    ∃ g', ompProcessing gl g k sched = some g' ∧ WellFormed gl g' ∧
      ∀ x y, InBounds gl x y → readCell g' x y = some (nextCell gl g x y) := by
  obtain ⟨ng, hmk, hn, _⟩ := mkGrid_wellFormed gl hg.1 hg.2.1
  have hmem : ∀ p, p ∈ sched ↔ p ∈ rowCells gl 0 gl.grid_height := fun p => hs.mem_iff
  unfold ompProcessing
  simp only [hmk, Option.some_bind, Option.bind_eq_bind, if_neg (show ¬ k ≤ 0 by omega)]
  apply run_covering gl g hg _ _ _ ng hn
  · intro p hp
    exact rowCells_inBounds gl 0 _ le_rfl le_rfl p ((hmem p).mp hp)
  · intro x y hb
    rw [hmem, mem_rowCells]
    exact ⟨⟨hb.2.2.1, hb.2.2.2⟩, hb.1, hb.2.1⟩

theorem binary_read (g : Grid) (x y c : Int) (hb : Binary g) (h : readCell g x y = some c) :
    c = 0 ∨ c = 1 := by
  unfold readCell at h
  split at h
  · split at h
    · rename_i row hrow
      exact hb row (List.getElem?_mem hrow) c (List.getElem?_mem h)
    · cases h
  · cases h

/-! ## Neighbour contributions -/

theorem nbr_indicator (gl : Globals) (g : Grid) (x y dx dy : Int)
    (hg : WellFormed gl g) (hb : Binary g) :
    nbr gl g x y dx dy =
      if InBounds gl (x + dx) (y + dy) ∧ readCell g (x + dx) (y + dy) = some 1 then 1 else 0 := by
  unfold nbr
  by_cases hin : InBounds gl (x + dx) (y + dy)
  · have hr := readCell_eq_cellD gl g _ _ hg hin
    rcases binary_read g _ _ _ hb hr with h | h
    · simp [hin, hr, h]
    · simp [hin, hr, h]
  · simp [hin]

theorem nbr_bounds (gl : Globals) (g : Grid) (x y dx dy : Int)
    (hg : WellFormed gl g) (hb : Binary g) :
    0 ≤ nbr gl g x y dx dy ∧ nbr gl g x y dx dy ≤ 1 := by
  rw [nbr_indicator gl g x y dx dy hg hb]
  split <;> omega

theorem nbr_outside (gl : Globals) (g : Grid) (x y dx dy : Int)
    (h : ¬ InBounds gl (x + dx) (y + dy)) : nbr gl g x y dx dy = 0 := by
  unfold nbr
  rw [if_neg h]

theorem liveCount_eq_inside (gl : Globals) (g : Grid) (x y : Int)
    (hg : WellFormed gl g) (hb : Binary g) :
    liveCount gl g x y = (liveNeighboursInside gl g x y : Int) := by
  unfold liveCount liveNeighboursInside neighbourOffsets
  simp only [nbr_indicator gl g x y _ _ hg hb, List.countP_cons, List.countP_nil,
    decide_eq_true_eq]
  push_cast
  ring

/-! ## Patterns -/

/-- When the cells of a grid are given by a function that vanishes outside the
grid, the next state of a cell is the Conway rule applied to that function. -/
theorem nextCell_pattern (gl : Globals) (g : Grid) (f : Int → Int → Int)
    (_hg : WellFormed gl g)
    (hread : ∀ a b, InBounds gl a b → readCell g a b = some (f a b))
    (hout : ∀ a b, ¬ InBounds gl a b → f a b = 0)
    (px py : Int) (hp : InBounds gl px py) :
    nextCell gl g px py =
      (if f px py = 1 then
        (if f (px + -1) (py + -1) + f (px + -1) (py + 0) + f (px + -1) (py + 1) +
            f (px + 0) (py + -1) + f (px + 0) (py + 1) +
            f (px + 1) (py + -1) + f (px + 1) (py + 0) + f (px + 1) (py + 1) = 2 ∨
          f (px + -1) (py + -1) + f (px + -1) (py + 0) + f (px + -1) (py + 1) +
            f (px + 0) (py + -1) + f (px + 0) (py + 1) +
            f (px + 1) (py + -1) + f (px + 1) (py + 0) + f (px + 1) (py + 1) = 3 then 1 else 0)
      else
        (if f (px + -1) (py + -1) + f (px + -1) (py + 0) + f (px + -1) (py + 1) +
            f (px + 0) (py + -1) + f (px + 0) (py + 1) +
            f (px + 1) (py + -1) + f (px + 1) (py + 0) + f (px + 1) (py + 1) = 3 then 1 else 0)) := by
  have hn : ∀ dx dy, nbr gl g px py dx dy = f (px + dx) (py + dy) := by
    intro dx dy
    unfold nbr
    by_cases hin : InBounds gl (px + dx) (py + dy)
    · rw [if_pos hin, cellD, hread _ _ hin, Option.getD_some]
    · rw [if_neg hin, hout _ _ hin]
  have hc : cellD g px py = f px py := by
    rw [cellD, hread _ _ hp, Option.getD_some]
  unfold nextCell liveCount
  simp only [hn, hc]

theorem blinker_arith_h (x y px py : Int) (f : Int → Int → Int)
    (hf : ∀ a b, f a b = if b = y ∧ (a = x - 1 ∨ a = x ∨ a = x + 1) then 1 else 0) :
    (if f px py = 1 then
      (if f (px + -1) (py + -1) + f (px + -1) (py + 0) + f (px + -1) (py + 1) +
          f (px + 0) (py + -1) + f (px + 0) (py + 1) +
          f (px + 1) (py + -1) + f (px + 1) (py + 0) + f (px + 1) (py + 1) = 2 ∨
        f (px + -1) (py + -1) + f (px + -1) (py + 0) + f (px + -1) (py + 1) +
          f (px + 0) (py + -1) + f (px + 0) (py + 1) +
          f (px + 1) (py + -1) + f (px + 1) (py + 0) + f (px + 1) (py + 1) = 3 then 1 else 0)
    else
      (if f (px + -1) (py + -1) + f (px + -1) (py + 0) + f (px + -1) (py + 1) +
          f (px + 0) (py + -1) + f (px + 0) (py + 1) +
          f (px + 1) (py + -1) + f (px + 1) (py + 0) + f (px + 1) (py + 1) = 3 then 1 else 0)) =
    (if px = x ∧ (py = y - 1 ∨ py = y ∨ py = y + 1) then (1 : Int) else 0) := by
  simp only [hf]
  have hu : px - x ≤ -3 ∨ px - x = -2 ∨ px - x = -1 ∨ px - x = 0 ∨ px - x = 1 ∨
      px - x = 2 ∨ 3 ≤ px - x := by omega
  have hv : py - y ≤ -3 ∨ py - y = -2 ∨ py - y = -1 ∨ py - y = 0 ∨ py - y = 1 ∨
      py - y = 2 ∨ 3 ≤ py - y := by omega
  rcases hu with hu | hu | hu | hu | hu | hu | hu <;>
  rcases hv with hv | hv | hv | hv | hv | hv | hv <;>
  simp (disch := omega) only [if_pos, if_neg, if_true]

theorem blinker_arith_v (x y px py : Int) (f : Int → Int → Int)
    (hf : ∀ a b, f a b = if a = x ∧ (b = y - 1 ∨ b = y ∨ b = y + 1) then 1 else 0) :
    (if f px py = 1 then
      (if f (px + -1) (py + -1) + f (px + -1) (py + 0) + f (px + -1) (py + 1) +
          f (px + 0) (py + -1) + f (px + 0) (py + 1) +
          f (px + 1) (py + -1) + f (px + 1) (py + 0) + f (px + 1) (py + 1) = 2 ∨
        f (px + -1) (py + -1) + f (px + -1) (py + 0) + f (px + -1) (py + 1) +
          f (px + 0) (py + -1) + f (px + 0) (py + 1) +
          f (px + 1) (py + -1) + f (px + 1) (py + 0) + f (px + 1) (py + 1) = 3 then 1 else 0)
    else
      (if f (px + -1) (py + -1) + f (px + -1) (py + 0) + f (px + -1) (py + 1) +
          f (px + 0) (py + -1) + f (px + 0) (py + 1) +
          f (px + 1) (py + -1) + f (px + 1) (py + 0) + f (px + 1) (py + 1) = 3 then 1 else 0)) =
    (if py = y ∧ (px = x - 1 ∨ px = x ∨ px = x + 1) then (1 : Int) else 0) := by
  simp only [hf]
  have hu : px - x ≤ -3 ∨ px - x = -2 ∨ px - x = -1 ∨ px - x = 0 ∨ px - x = 1 ∨
      px - x = 2 ∨ 3 ≤ px - x := by omega
  have hv : py - y ≤ -3 ∨ py - y = -2 ∨ py - y = -1 ∨ py - y = 0 ∨ py - y = 1 ∨
      py - y = 2 ∨ 3 ≤ py - y := by omega
  rcases hu with hu | hu | hu | hu | hu | hu | hu <;>
  rcases hv with hv | hv | hv | hv | hv | hv | hv <;>
  simp (disch := omega) only [if_pos, if_neg, if_true]

theorem block_arith (x0 y0 px py : Int) (f : Int → Int → Int)
    (hf : ∀ a b, f a b = if (a = x0 ∨ a = x0 + 1) ∧ (b = y0 ∨ b = y0 + 1) then 1 else 0) :
    (if f px py = 1 then
      (if f (px + -1) (py + -1) + f (px + -1) (py + 0) + f (px + -1) (py + 1) +
          f (px + 0) (py + -1) + f (px + 0) (py + 1) +
          f (px + 1) (py + -1) + f (px + 1) (py + 0) + f (px + 1) (py + 1) = 2 ∨
        f (px + -1) (py + -1) + f (px + -1) (py + 0) + f (px + -1) (py + 1) +
          f (px + 0) (py + -1) + f (px + 0) (py + 1) +
          f (px + 1) (py + -1) + f (px + 1) (py + 0) + f (px + 1) (py + 1) = 3 then 1 else 0)
    else
      (if f (px + -1) (py + -1) + f (px + -1) (py + 0) + f (px + -1) (py + 1) +
          f (px + 0) (py + -1) + f (px + 0) (py + 1) +
          f (px + 1) (py + -1) + f (px + 1) (py + 0) + f (px + 1) (py + 1) = 3 then 1 else 0)) =
    f px py := by
  simp only [hf]
  have hu : px - x0 ≤ -3 ∨ px - x0 = -2 ∨ px - x0 = -1 ∨ px - x0 = 0 ∨ px - x0 = 1 ∨
      px - x0 = 2 ∨ 3 ≤ px - x0 := by omega
  have hv : py - y0 ≤ -3 ∨ py - y0 = -2 ∨ py - y0 = -1 ∨ py - y0 = 0 ∨ py - y0 = 1 ∨
      py - y0 = 2 ∨ 3 ≤ py - y0 := by omega
  rcases hu with hu | hu | hu | hu | hu | hu | hu <;>
  rcases hv with hv | hv | hv | hv | hv | hv | hv <;>
  simp (disch := omega) only [if_pos, if_neg, if_true]

/-! ## Command-line parser -/

theorem parseArgs_eq_fold (stoi : String → Option Int) :
    ∀ (n : Nat) (args : List String) (gl : Globals), args.length ≤ n →
      parseArgs stoi args gl = (optionPairs args).foldlM (applyOption stoi) gl := by
  intro n
  induction n with
  | zero =>
    intro args gl h
    have : args = [] := List.length_eq_zero.mp (by omega)
    subst this
    rfl
  | succ n ih =>
    intro args gl h
    match args, h with
    | [], _ => rfl
    | [_], _ => rfl
    | arg :: v :: rest, h =>
      have hrest : rest.length ≤ n := by simp at h; omega
      have hvrest : (v :: rest).length ≤ n := by simp at h ⊢; omega
      unfold parseArgs optionPairs
      by_cases hn : arg = "-n"
      · subst hn
        simp only [true_or, if_true, List.foldlM_cons, applyOption]
        cases stoi v with
        | none => rfl
        | some k => simpa using ih rest _ hrest
      by_cases hc : arg = "-c"
      · subst hc
        simp only [if_neg hn, true_or, or_true, if_true, List.foldlM_cons, applyOption]
        cases stoi v with
        | none => rfl
        | some k => simpa using ih rest _ hrest
      by_cases hx : arg = "-x"
      · subst hx
        simp only [if_neg hn, if_neg hc, true_or, or_true, if_true, List.foldlM_cons, applyOption]
        cases stoi v with
        | none => rfl
        | some k => simpa using ih rest _ hrest
      by_cases hy : arg = "-y"
      · subst hy
        simp only [if_neg hn, if_neg hc, if_neg hx, true_or, or_true, if_true,
          List.foldlM_cons, applyOption]
        cases stoi v with
        | none => rfl
        | some k => simpa using ih rest _ hrest
      by_cases ht : arg = "-t"
      · subst ht
        simp only [if_neg hn, if_neg hc, if_neg hx, if_neg hy, or_true, if_true,
          List.foldlM_cons, applyOption]
        simpa using ih rest _ hrest
      · rw [if_neg hn, if_neg hc, if_neg hx, if_neg hy, if_neg ht,
          if_neg (by simp [hn, hc, hx, hy, ht])]
        exact ih (v :: rest) gl hvrest

theorem applyOption_step (stoi : String → Option Int) (gl : Globals) (p : String × String)
    (hp : p.1 ≠ "-t" → (stoi p.2).isSome = true) :
    ∃ gl1, applyOption stoi gl p = some gl1 ∧
      gl1.processing_type = (if p.1 = "-t" then
        (if p.2 ≠ "SEQ" ∧ p.2 ≠ "THRD" ∧ p.2 ≠ "OMP" then "THRD" else p.2)
        else gl.processing_type) ∧
      (p.1 ≠ "-n" → gl1.num_threads = gl.num_threads) ∧
      (p.1 = "-n" → ∀ n, stoi p.2 = some n → gl1.num_threads = if n < 2 then 8 else n) ∧
      (1 ≤ gl.cell_size → 1 ≤ gl1.cell_size) := by
  unfold applyOption
  by_cases hn : p.1 = "-n"
  · obtain ⟨k, hk⟩ := Option.isSome_iff_exists.mp (hp (by rw [hn]; decide))
    refine ⟨_, by rw [if_pos hn, hk]; rfl, ?_, ?_, ?_, ?_⟩
    · rw [if_neg (by rw [hn]; decide)]
    · intro h; exact absurd hn h
    · intro _ n hn'; rw [hk] at hn'; cases hn'; rfl
    · exact id
  by_cases hc : p.1 = "-c"
  · obtain ⟨k, hk⟩ := Option.isSome_iff_exists.mp (hp (by rw [hc]; decide))
    refine ⟨_, by rw [if_neg hn, if_pos hc, hk]; rfl, ?_, ?_, ?_, ?_⟩
    · rw [if_neg (by rw [hc]; decide)]
    · intro _; rfl
    · intro h; exact absurd h hn
    · intro _; show 1 ≤ (if k < 1 then 5 else k); split <;> omega
  by_cases hx : p.1 = "-x"
  · obtain ⟨k, hk⟩ := Option.isSome_iff_exists.mp (hp (by rw [hx]; decide))
    refine ⟨_, by rw [if_neg hn, if_neg hc, if_pos hx, hk]; rfl, ?_, ?_, ?_, ?_⟩
    · rw [if_neg (by rw [hx]; decide)]
    · intro _; rfl
    · intro h; exact absurd h hn
    · exact id
  by_cases hy : p.1 = "-y"
  · obtain ⟨k, hk⟩ := Option.isSome_iff_exists.mp (hp (by rw [hy]; decide))
    refine ⟨_, by rw [if_neg hn, if_neg hc, if_neg hx, if_pos hy, hk]; rfl, ?_, ?_, ?_, ?_⟩
    · rw [if_neg (by rw [hy]; decide)]
    · intro _; rfl
    · intro h; exact absurd h hn
    · exact id
  by_cases ht : p.1 = "-t"
  · refine ⟨_, by rw [if_neg hn, if_neg hc, if_neg hx, if_neg hy, if_pos ht], ?_, ?_, ?_, ?_⟩
    · rw [if_pos ht]
    · intro _; rfl
    · intro h; exact absurd h hn
    · exact id
  · refine ⟨gl, by rw [if_neg hn, if_neg hc, if_neg hx, if_neg hy, if_neg ht], ?_, ?_, ?_, ?_⟩
    · rw [if_neg ht]
    · intro _; rfl
    · intro h; exact absurd h hn
    · exact id

theorem selectedType_cons (p : String × String) (ps : List (String × String)) (dflt : String) :
    selectedType (p :: ps) dflt =
      selectedType ps (if p.1 = "-t" then
        (if p.2 ≠ "SEQ" ∧ p.2 ≠ "THRD" ∧ p.2 ≠ "OMP" then "THRD" else p.2) else dflt) := by
  unfold selectedType
  simp only [lastValue]
  cases lastValue "-t" ps with
  | some w => rfl
  | none =>
    by_cases h : p.1 = "-t"
    · simp only [if_pos h]
    · simp only [if_neg h]

theorem fold_applyOption (stoi : String → Option Int) (ps : List (String × String)) :
    ∀ gl : Globals, (∀ p ∈ ps, p.1 ≠ "-t" → (stoi p.2).isSome = true) →
    ∃ gl', ps.foldlM (applyOption stoi) gl = some gl' ∧
      gl'.processing_type = selectedType ps gl.processing_type ∧
      (∀ s n, lastValue "-n" ps = some s → stoi s = some n →
        gl'.num_threads = if n < 2 then 8 else n) ∧
      (lastValue "-n" ps = none → gl'.num_threads = gl.num_threads) ∧
      (1 ≤ gl.cell_size → 1 ≤ gl'.cell_size) := by
  induction ps with
  | nil =>
    intro gl _
    exact ⟨gl, rfl, rfl, by simp [lastValue], fun _ => rfl, id⟩
  | cons p ps ih =>
    intro gl hnum
    obtain ⟨gl1, h1, ht1, hk1, hn1, hc1⟩ :=
      applyOption_step stoi gl p (hnum p (List.mem_cons_self _ _))
    obtain ⟨gl2, h2, ht2, hs2, hn2, hc2⟩ := ih gl1 (fun q hq => hnum q (List.mem_cons_of_mem _ hq))
    refine ⟨gl2, ?_, ?_, ?_, ?_, fun h => hc2 (hc1 h)⟩
    · simp only [List.foldlM_cons, h1, Option.some_bind, Option.bind_eq_bind]
      exact h2
    · rw [selectedType_cons, ht2, ht1]
    · intro s n hs hsn
      simp only [lastValue] at hs
      cases hl : lastValue "-n" ps with
      | some w =>
        rw [hl] at hs
        cases hs
        exact hs2 _ n hl hsn
      | none =>
        rw [hl] at hs
        by_cases hp : p.1 = "-n"
        · rw [if_pos hp] at hs
          cases hs
          rw [hn2 hl]
          exact hn1 hp n hsn
        · rw [if_neg hp] at hs
          cases hs
    · intro hnone
      simp only [lastValue] at hnone
      cases hl : lastValue "-n" ps with
      | some w => rw [hl] at hnone; cases hnone
      | none =>
        rw [hl] at hnone
        by_cases hp : p.1 = "-n"
        · rw [if_pos hp] at hnone; cases hnone
        · rw [hn2 hl]
          exact hk1 hp

theorem lastValue_mem (flag : String) (ps : List (String × String)) (s : String)
    (h : lastValue flag ps = some s) : (flag, s) ∈ ps := by
  induction ps with
  | nil => simp [lastValue] at h
  | cons p ps ih =>
    simp only [lastValue] at h
    cases hl : lastValue flag ps with
    | some w =>
      rw [hl] at h
      cases h
      exact List.mem_cons_of_mem _ (ih hl)
    | none =>
      rw [hl] at h
      by_cases hp : p.1 = flag
      · rw [if_pos hp] at h
        cases h
        rw [← hp]
        exact List.mem_cons_self _ _
      · rw [if_neg hp] at h
        cases h

/-- The parser completes on every command line whose numeric values parse, and
its result is described by the last `-t` and the last `-n` option. -/
theorem parseCommandLine_spec (stoi : String → Option Int) (argv : List String)
    (hnum : NumericOK stoi argv.tail) :
    ∃ gl1, parseArgs stoi argv.tail {} = some gl1 ∧
      parseCommandLine stoi argv {} =
        some (if gl1.processing_type = "SEQ" then { gl1 with num_threads := 1 } else gl1) ∧
      gl1.processing_type = selectedType (optionPairs argv.tail) "THRD" ∧
      (∀ s n, lastValue "-n" (optionPairs argv.tail) = some s → stoi s = some n →
        gl1.num_threads = if n < 2 then 8 else n) ∧
      (lastValue "-n" (optionPairs argv.tail) = none → gl1.num_threads = 8) ∧
      1 ≤ gl1.cell_size := by
  obtain ⟨gl1, h1, ht, hs, hn, hc⟩ := fold_applyOption stoi (optionPairs argv.tail) {} hnum
  have hp : parseArgs stoi argv.tail {} = some gl1 := by
    rw [parseArgs_eq_fold stoi _ argv.tail {} le_rfl]
    exact h1
  refine ⟨gl1, hp, ?_, ht, hs, hn, hc (by decide)⟩
  unfold parseCommandLine
  rw [hp]

/-! ## Benchmark window -/

theorem benchStep_tracks (s : LoopState) (w : WindowState) (c : Readings)
    (ht : Tracks s w) (hlt : s.generations < INT_MAX) :
    ∃ s1 r, benchStep s c = some (s1, r) ∧ (windowStep w c).2 = r ∧
      Tracks s1 (windowStep w c).1 ∧ s1.generations = s.generations + 1 ∧
      (r.isSome = true ↔ w.window + 1 = 100) ∧
      (r.isSome = true ↔ (s.generations + 1) % 100 = 0) ∧
      (r.isSome = true → s1.start = c.at_reset ∧ (windowStep w c).1.window = 0 ∧
        r = some { elapsed := c.at_end - s.start }) ∧
      (r = none → s1.start = s.start) := by
  obtain ⟨hg, hw, hs⟩ := ht
  have hne : ¬ s.generations = INT_MAX := by omega
  have hnn : 0 ≤ s.generations + 1 := by omega
  have hmod : Int.tmod (s.generations + 1) 100 = (s.generations + 1) % 100 :=
    Int.tmod_eq_emod hnn (by decide)
  unfold benchStep windowStep
  rw [if_neg hne]
  simp only [hmod]
  by_cases h : w.window + 1 = 100
  · have h0 : (s.generations + 1) % 100 = 0 := by omega
    rw [if_pos h, if_pos h0]
    refine ⟨_, _, rfl, by rw [hs], ⟨?_, ?_, rfl⟩, rfl, ?_, ?_, ?_, ?_⟩
    · show ((w.generation + 1 : Nat) : Int) = s.generations + 1
      omega
    · show 0 = (w.generation + 1) % 100
      omega
    · simp [h]
    · simp [h0]
    · intro _; exact ⟨rfl, rfl, rfl⟩
    · intro hr; cases hr
  · have h0 : ¬ (s.generations + 1) % 100 = 0 := by omega
    rw [if_neg h, if_neg h0]
    refine ⟨_, _, rfl, rfl, ⟨?_, ?_, hs⟩, rfl, ?_, ?_, ?_, ?_⟩
    · show ((w.generation + 1 : Nat) : Int) = s.generations + 1
      omega
    · show w.window + 1 = (w.generation + 1) % 100
      omega
    · simp [h]
    · simp [h0]
    · intro hr; cases hr
    · intro _; rfl

theorem gameLoop_tracks (clock : List Readings) :
    ∀ (s : LoopState) (w : WindowState), Tracks s w → 0 ≤ s.generations →
      s.generations + clock.length ≤ INT_MAX →
      ∃ s', gameLoop s clock = some s' ∧ Tracks s' (windowRun w clock) ∧
        s'.generations = s.generations + clock.length := by
  induction clock with
  | nil =>
    intro s w ht _ _
    exact ⟨s, rfl, ht, by simp⟩
  | cons c cs ih =>
    intro s w ht h0 hlen
    simp only [List.length_cons, Nat.cast_add, Nat.cast_one] at hlen
    obtain ⟨s1, r, h1, _, ht1, hg1, _⟩ := benchStep_tracks s w c ht (by omega)
    obtain ⟨s', h2, ht2, hg2⟩ := ih s1 _ ht1 (by omega) (by omega)
    refine ⟨s', ?_, ht2, ?_⟩
    · unfold gameLoop at h2 ⊢
      simp only [List.foldlM_cons, h1, Option.map_some', Option.some_bind, Option.bind_eq_bind]
      exact h2
    · rw [hg2, hg1]
      simp only [List.length_cons, Nat.cast_add, Nat.cast_one]
      omega

/-! ## Claims -/

/-- C1 (strategy invariance).  For every well-formed grid of 0/1 cells (any
height and width, in particular every H >= 1 and W >= 1), every worker count
k >= 1, every order in which the k thread workers take effect and every order
in which the collapsed OpenMP iterations take effect, `sequentialProcessing`,
`multithreadedProcessing` and `ompProcessing` all complete and leave the same
grid. -/
theorem strategy_invariance (gl : Globals) (g : Grid) (k : Int)
    (order : List Int) (sched : List (Int × Int))
    (hg : WellFormed gl g) (_hb : Binary g) (hk : 1 ≤ k)
    (ho : order.Perm (spawned k)) (hs : sched.Perm (ompIterations gl)) :
    ∃ g', sequentialProcessing gl g = some g' ∧
      multithreadedProcessing gl g k order = some g' ∧
      ompProcessing gl g k sched = some g' := by
  obtain ⟨a, ha, hwa, hra⟩ := updateGrid_spec gl g hg
  obtain ⟨b, hb, hwb, hrb⟩ := multithreadedProcessing_spec gl g k order hg hk ho
  obtain ⟨c, hc, hwc, hrc⟩ := ompProcessing_spec gl g k sched hg hk hs
  have hab : b = a := grid_ext gl b a hwb hwa (fun x y h => by rw [hrb x y h, hra x y h])
  have hac : c = a := grid_ext gl c a hwc hwa (fun x y h => by rw [hrc x y h, hra x y h])
  exact ⟨a, ha, hab ▸ hb, hac ▸ hc⟩

/-- C1 at a 3 x 4 grid with 2 workers taking effect in reverse spawn order and
the OpenMP iterations in reverse source order. -/
theorem strategy_invariance_witness :
    ∃ g', sequentialProcessing { grid_width := 4, grid_height := 3 }
        [[0, 1, 0, 0], [1, 1, 1, 0], [0, 0, 1, 1]] = some g' ∧
      multithreadedProcessing { grid_width := 4, grid_height := 3 }
        [[0, 1, 0, 0], [1, 1, 1, 0], [0, 0, 1, 1]] 2 [1, 0] = some g' ∧
      ompProcessing { grid_width := 4, grid_height := 3 }
        [[0, 1, 0, 0], [1, 1, 1, 0], [0, 0, 1, 1]] 2
        (ompIterations { grid_width := 4, grid_height := 3 }).reverse = some g' :=
  strategy_invariance { grid_width := 4, grid_height := 3 }
    [[0, 1, 0, 0], [1, 1, 1, 0], [0, 0, 1, 1]] 2 [1, 0]
    (ompIterations { grid_width := 4, grid_height := 3 }).reverse
    (by decide) (by decide) (by decide) (by decide) (List.reverse_perm _)

/-- C2 (partition coverage).  For every height H >= 0 and worker count k >= 1,
every row of [0, H) is owned by exactly one of the workers 0..k-1, no worker
owns a row outside [0, H), and two different workers own no common row. -/
theorem partition_coverage (gl : Globals) (k : Int) (hH : 0 ≤ gl.grid_height) (hk : 1 ≤ k) :
    (∀ y, 0 ≤ y ∧ y < gl.grid_height → ∃! i, (0 ≤ i ∧ i < k) ∧ owns gl k i y) ∧
    (∀ i y, 0 ≤ i ∧ i < k → owns gl k i y → 0 ≤ y ∧ y < gl.grid_height) ∧
    (∀ i j y, 0 ≤ i ∧ i < k → 0 ≤ j ∧ j < k → i ≠ j → ¬ (owns gl k i y ∧ owns gl k j y)) := by
  refine ⟨?_, ?_, ?_⟩
  · intro y hy
    obtain ⟨i, hi, ho⟩ := owns_exists gl k y hk hy
    exact ⟨i, ⟨hi, ho⟩, fun j hj => owns_unique gl k j i y hH hk hj.1 hi hj.2 ho⟩
  · intro i y hi ho
    exact owns_inside gl k i y hH hk hi ho
  · rintro i j y hi hj hne ⟨hoi, hoj⟩
    exact hne (owns_unique gl k i j y hH hk hi hj hoi hoj)

/-- C2 at height 7 with 3 workers (7 mod 3 = 1): row 6 belongs to the last
worker only. -/
theorem partition_coverage_witness :
    (0 : Int) ≤ 7 ∧ (1 : Int) ≤ 3 ∧
    (∃! i, (0 ≤ i ∧ i < 3) ∧ owns { grid_height := 7 } 3 i 6) :=
  ⟨by decide, by decide,
    (partition_coverage { grid_height := 7 } 3 (by decide) (by decide)).1 6 (by decide)⟩

/-- C3 (Conway rule per cell).  For a well-formed grid of 0/1 cells and an
in-bounds cell (x, y) with stored value c and n = countLiveNeighbors(g, x, y),
the cell of updateGrid(g) at (x, y) is 1 when (c = 1 and n is 2 or 3) or
(c = 0 and n = 3), and 0 otherwise; so a dead cell with 3 live neighbours is
born, a live cell with at most 1 or at least 4 live neighbours dies. -/
theorem conway_rule_per_cell (gl : Globals) (g : Grid) (x y : Int)
    (hg : WellFormed gl g) (hb : Binary g) (hxy : InBounds gl x y) :
    ∃ g' n c, updateGrid gl g = some g' ∧ countLiveNeighbors gl g x y = some n ∧
      readCell g x y = some c ∧
      readCell g' x y =
        some (if (c = 1 ∧ (n = 2 ∨ n = 3)) ∨ (c = 0 ∧ n = 3) then 1 else 0) ∧
      (c = 0 ∧ n = 3 → readCell g' x y = some 1) ∧
      (c = 1 ∧ (n = 0 ∨ n = 1) → readCell g' x y = some 0) ∧
      (c = 1 ∧ 4 ≤ n → readCell g' x y = some 0) := by
  obtain ⟨g', hu, _, hr⟩ := updateGrid_spec gl g hg
  have hc := readCell_eq_cellD gl g x y hg hxy
  have hmain : readCell g' x y =
      some (if (cellD g x y = 1 ∧ (liveCount gl g x y = 2 ∨ liveCount gl g x y = 3)) ∨
        (cellD g x y = 0 ∧ liveCount gl g x y = 3) then 1 else 0) := by
    rw [hr x y hxy]
    unfold nextCell
    rcases binary_read g x y _ hb hc with h | h
    · simp [h]
    · simp [h]
  refine ⟨g', liveCount gl g x y, cellD g x y, hu, countLiveNeighbors_eq gl g x y hg, hc,
    hmain, ?_, ?_, ?_⟩
  · rintro ⟨h0, h3⟩
    rw [hmain]; simp [h0, h3]
  · rintro ⟨h1, hn⟩
    rw [hmain]
    rcases hn with hn | hn <;> simp [h1, hn]
  · rintro ⟨h1, hn⟩
    rw [hmain]
    have h2 : ¬ liveCount gl g x y = 2 := by omega
    have h3 : ¬ liveCount gl g x y = 3 := by omega
    simp [h1, h2, h3]

/-- C3 at the centre of a 3 x 3 grid holding a horizontal blinker. -/
theorem conway_rule_per_cell_witness :
    ∃ g' n c, updateGrid { grid_width := 3, grid_height := 3 }
        [[0, 0, 0], [1, 1, 1], [0, 0, 0]] = some g' ∧
      countLiveNeighbors { grid_width := 3, grid_height := 3 }
        [[0, 0, 0], [1, 1, 1], [0, 0, 0]] 1 1 = some n ∧
      readCell [[0, 0, 0], [1, 1, 1], [0, 0, 0]] 1 1 = some c ∧
      readCell g' 1 1 =
        some (if (c = 1 ∧ (n = 2 ∨ n = 3)) ∨ (c = 0 ∧ n = 3) then 1 else 0) ∧
      (c = 0 ∧ n = 3 → readCell g' 1 1 = some 1) ∧
      (c = 1 ∧ (n = 0 ∨ n = 1) → readCell g' 1 1 = some 0) ∧
      (c = 1 ∧ 4 ≤ n → readCell g' 1 1 = some 0) :=
  conway_rule_per_cell { grid_width := 3, grid_height := 3 }
    [[0, 0, 0], [1, 1, 1], [0, 0, 0]] 1 1 (by decide) (by decide) (by decide)

/-- C4 (boundary clipping).  For a well-formed grid of 0/1 cells and an
in-bounds cell (x, y), countLiveNeighbors completes (no cell outside the grid
is read) and returns the number of live cells among the neighbour positions
inside the grid; the count is at most 8, at most 5 on an edge of the grid and
at most 3 at a corner. -/
theorem boundary_clipping (gl : Globals) (g : Grid) (x y : Int)
    (hg : WellFormed gl g) (hb : Binary g) (_hxy : InBounds gl x y) :
    ∃ n, countLiveNeighbors gl g x y = some n ∧
      n = (liveNeighboursInside gl g x y : Int) ∧ n ≤ 8 ∧
      ((x = 0 ∨ x = gl.grid_width - 1 ∨ y = 0 ∨ y = gl.grid_height - 1) → n ≤ 5) ∧
      ((x = 0 ∨ x = gl.grid_width - 1) ∧ (y = 0 ∨ y = gl.grid_height - 1) → n ≤ 3) := by
  refine ⟨liveCount gl g x y, countLiveNeighbors_eq gl g x y hg,
    liveCount_eq_inside gl g x y hg hb, ?_⟩
  have b := fun dx dy => nbr_bounds gl g x y dx dy hg hb
  have hL : x = 0 → ∀ dy, nbr gl g x y (-1) dy = 0 := fun h dy =>
    nbr_outside gl g x y (-1) dy (fun hin => by have := hin.1; omega)
  have hR : x = gl.grid_width - 1 → ∀ dy, nbr gl g x y 1 dy = 0 := fun h dy =>
    nbr_outside gl g x y 1 dy (fun hin => by have := hin.2.1; omega)
  have hT : y = 0 → ∀ dx, nbr gl g x y dx (-1) = 0 := fun h dx =>
    nbr_outside gl g x y dx (-1) (fun hin => by have := hin.2.2.1; omega)
  have hB : y = gl.grid_height - 1 → ∀ dx, nbr gl g x y dx 1 = 0 := fun h dx =>
    nbr_outside gl g x y dx 1 (fun hin => by have := hin.2.2.2; omega)
  have b1 := b (-1) (-1)
  have b2 := b (-1) 0
  have b3 := b (-1) 1
  have b4 := b 0 (-1)
  have b5 := b 0 1
  have b6 := b 1 (-1)
  have b7 := b 1 0
  have b8 := b 1 1
  unfold liveCount
  refine ⟨by omega, ?_, ?_⟩
  · rintro (h | h | h | h)
    · have e1 := hL h (-1); have e2 := hL h 0; have e3 := hL h 1; omega
    · have e1 := hR h (-1); have e2 := hR h 0; have e3 := hR h 1; omega
    · have e1 := hT h (-1); have e2 := hT h 0; have e3 := hT h 1; omega
    · have e1 := hB h (-1); have e2 := hB h 0; have e3 := hB h 1; omega
  · rintro ⟨h | h, h' | h'⟩
    · have e1 := hL h (-1); have e2 := hL h 0; have e3 := hL h 1
      have e4 := hT h' (-1); have e5 := hT h' 0; have e6 := hT h' 1; omega
    · have e1 := hL h (-1); have e2 := hL h 0; have e3 := hL h 1
      have e4 := hB h' (-1); have e5 := hB h' 0; have e6 := hB h' 1; omega
    · have e1 := hR h (-1); have e2 := hR h 0; have e3 := hR h 1
      have e4 := hT h' (-1); have e5 := hT h' 0; have e6 := hT h' 1; omega
    · have e1 := hR h (-1); have e2 := hR h 0; have e3 := hR h 1
      have e4 := hB h' (-1); have e5 := hB h' 0; have e6 := hB h' 1; omega

/-- C4 at the corner (0, 0) of a 3 x 3 grid whose cells are all alive. -/
theorem boundary_clipping_witness :
    ∃ n, countLiveNeighbors { grid_width := 3, grid_height := 3 }
        [[1, 1, 1], [1, 1, 1], [1, 1, 1]] 0 0 = some n ∧
      n = (liveNeighboursInside { grid_width := 3, grid_height := 3 }
        [[1, 1, 1], [1, 1, 1], [1, 1, 1]] 0 0 : Int) ∧ n ≤ 8 ∧
      (((0 : Int) = 0 ∨ (0 : Int) = 3 - 1 ∨ (0 : Int) = 0 ∨ (0 : Int) = 3 - 1) → n ≤ 5) ∧
      (((0 : Int) = 0 ∨ (0 : Int) = 3 - 1) ∧ ((0 : Int) = 0 ∨ (0 : Int) = 3 - 1) → n ≤ 3) :=
  boundary_clipping { grid_width := 3, grid_height := 3 }
    [[1, 1, 1], [1, 1, 1], [1, 1, 1]] 0 0 (by decide) (by decide) (by decide)

/-- C5 (blinker oscillator).  In a well-formed grid of height and width at
least 3, let (x, y) be a centre with 1 <= x <= W-2 and 1 <= y <= H-2, and let
the live cells be exactly (x-1, y), (x, y), (x+1, y), all other cells being 0.
Then updateGrid completes, the live cells of its result are exactly (x, y-1),
(x, y), (x, y+1), and a second updateGrid gives back the original grid. -/
theorem blinker_oscillator (gl : Globals) (g : Grid) (x y : Int)
    (hg : WellFormed gl g)
    (hx : 1 ≤ x ∧ x ≤ gl.grid_width - 2) (hy : 1 ≤ y ∧ y ≤ gl.grid_height - 2)
    (hlive : ∀ px py, InBounds gl px py → readCell g px py =
      some (if py = y ∧ (px = x - 1 ∨ px = x ∨ px = x + 1) then 1 else 0)) :
    ∃ g1, updateGrid gl g = some g1 ∧
      (∀ px py, InBounds gl px py → readCell g1 px py =
        some (if px = x ∧ (py = y - 1 ∨ py = y ∨ py = y + 1) then 1 else 0)) ∧
      updateGrid gl g1 = some g := by
  obtain ⟨g1, hu1, hw1, hr1⟩ := updateGrid_spec gl g hg
  have h1 : ∀ px py, InBounds gl px py → readCell g1 px py =
      some (if px = x ∧ (py = y - 1 ∨ py = y ∨ py = y + 1) then 1 else 0) := by
    intro px py hp
    rw [hr1 px py hp, nextCell_pattern gl g
      (fun a b => if b = y ∧ (a = x - 1 ∨ a = x ∨ a = x + 1) then 1 else 0) hg hlive
      (fun a b hn => if_neg (fun hc => hn ⟨by omega, by omega, by omega, by omega⟩)) px py hp,
      blinker_arith_h x y px py _ (fun _ _ => rfl)]
  obtain ⟨g2, hu2, hw2, hr2⟩ := updateGrid_spec gl g1 hw1
  have h2 : ∀ px py, InBounds gl px py → readCell g2 px py = readCell g px py := by
    intro px py hp
    rw [hr2 px py hp, hlive px py hp, nextCell_pattern gl g1
      (fun a b => if a = x ∧ (b = y - 1 ∨ b = y ∨ b = y + 1) then 1 else 0) hw1 h1
      (fun a b hn => if_neg (fun hc => hn ⟨by omega, by omega, by omega, by omega⟩)) px py hp,
      blinker_arith_v x y px py _ (fun _ _ => rfl)]
  have e : g2 = g := grid_ext gl g2 g hw2 hg h2
  exact ⟨g1, hu1, h1, e ▸ hu2⟩

/-- C5 at the 3 x 3 grid with the blinker centred at (1, 1). -/
theorem blinker_oscillator_witness :
    ∃ g1, updateGrid { grid_width := 3, grid_height := 3 }
        [[0, 0, 0], [1, 1, 1], [0, 0, 0]] = some g1 ∧
      (∀ px py, InBounds { grid_width := 3, grid_height := 3 } px py → readCell g1 px py =
        some (if px = 1 ∧ (py = 1 - 1 ∨ py = 1 ∨ py = 1 + 1) then 1 else 0)) ∧
      updateGrid { grid_width := 3, grid_height := 3 } g1 =
        some [[0, 0, 0], [1, 1, 1], [0, 0, 0]] :=
  blinker_oscillator { grid_width := 3, grid_height := 3 }
    [[0, 0, 0], [1, 1, 1], [0, 0, 0]] 1 1 (by decide) (by decide) (by decide)
    (by
      rintro px py ⟨h1, h2, h3, h4⟩
      have h2' : px < 3 := h2
      have h4' : py < 3 := h4
      interval_cases px <;> interval_cases py <;> decide)

/-- C6 (still life).  In a well-formed grid let the live cells be exactly the
2 x 2 block {x0, x0+1} x {y0, y0+1}, all other cells being 0, with 1 <= x0,
x0+2 <= W-1, 1 <= y0, y0+2 <= H-1.  Then updateGrid completes and returns the
grid unchanged. -/
theorem block_still_life (gl : Globals) (g : Grid) (x0 y0 : Int)
    (hg : WellFormed gl g)
    (hx : 1 ≤ x0 ∧ x0 + 2 ≤ gl.grid_width - 1) (hy : 1 ≤ y0 ∧ y0 + 2 ≤ gl.grid_height - 1)
    (hlive : ∀ px py, InBounds gl px py → readCell g px py =
      some (if (px = x0 ∨ px = x0 + 1) ∧ (py = y0 ∨ py = y0 + 1) then 1 else 0)) :
    updateGrid gl g = some g := by
  obtain ⟨g1, hu1, hw1, hr1⟩ := updateGrid_spec gl g hg
  have h1 : ∀ px py, InBounds gl px py → readCell g1 px py = readCell g px py := by
    intro px py hp
    rw [hr1 px py hp, hlive px py hp, nextCell_pattern gl g
      (fun a b => if (a = x0 ∨ a = x0 + 1) ∧ (b = y0 ∨ b = y0 + 1) then 1 else 0) hg hlive
      (fun a b hn => if_neg (fun hc => hn ⟨by omega, by omega, by omega, by omega⟩)) px py hp,
      block_arith x0 y0 px py _ (fun _ _ => rfl)]
  have e : g1 = g := grid_ext gl g1 g hw1 hg h1
  exact e ▸ hu1

/-- C6 at the 4 x 4 grid with the block at (1, 1). -/
theorem block_still_life_witness :
    updateGrid { grid_width := 4, grid_height := 4 }
        [[0, 0, 0, 0], [0, 1, 1, 0], [0, 1, 1, 0], [0, 0, 0, 0]] =
      some [[0, 0, 0, 0], [0, 1, 1, 0], [0, 1, 1, 0], [0, 0, 0, 0]] :=
  block_still_life { grid_width := 4, grid_height := 4 }
    [[0, 0, 0, 0], [0, 1, 1, 0], [0, 1, 1, 0], [0, 0, 0, 0]] 1 1
    (by decide) (by decide) (by decide)
    (by
      rintro px py ⟨h1, h2, h3, h4⟩
      have h2' : px < 4 := h2
      have h4' : py < 4 := h4
      interval_cases px <;> interval_cases py <;> decide)

/-- C7 (degenerate worker count), as amended: with worker count k = 1 the
thread strategy is a single worker owning the whole row range [0, H); on a
well-formed grid of 0/1 cells it completes and leaves exactly updateGrid(g). -/
theorem single_worker (gl : Globals) (g : Grid) (hg : WellFormed gl g) (_hb : Binary g) :
    spawned 1 = [0] ∧ (∀ y, owns gl 1 0 y ↔ 0 ≤ y ∧ y < gl.grid_height) ∧
    ∃ g', multithreadedProcessing gl g 1 [0] = some g' ∧ updateGrid gl g = some g' := by
  refine ⟨by decide, ?_, ?_⟩
  · intro y
    simp [owns, start_row, end_row]
  · obtain ⟨a, ha, hwa, hra⟩ := updateGrid_spec gl g hg
    obtain ⟨b, hb, hwb, hrb⟩ :=
      multithreadedProcessing_spec gl g 1 [0] hg le_rfl (by decide)
    have hab : b = a := grid_ext gl b a hwb hwa (fun x y h => by rw [hrb x y h, hra x y h])
    exact ⟨a, hab ▸ hb, ha⟩

/-- C7 as amended, at the 3 x 3 grid holding a horizontal blinker. -/
theorem single_worker_witness :
    spawned 1 = [0] ∧
    (∀ y, owns { grid_width := 3, grid_height := 3 } 1 0 y ↔ 0 ≤ y ∧ y < 3) ∧
    ∃ g', multithreadedProcessing { grid_width := 3, grid_height := 3 }
        [[0, 0, 0], [1, 1, 1], [0, 0, 0]] 1 [0] = some g' ∧
      updateGrid { grid_width := 3, grid_height := 3 }
        [[0, 0, 0], [1, 1, 1], [0, 0, 0]] = some g' :=
  single_worker { grid_width := 3, grid_height := 3 }
    [[0, 0, 0], [1, 1, 1], [0, 0, 0]] (by decide) (by decide)

/-- C7 as stated fails for k = 0 and for negative k: on the 3 x 3 blinker grid
no worker is spawned in either case, k = 0 faults in the division
`grid_height / num_threads`, and k = -1 leaves the all-dead grid, which is not
updateGrid(g). -/
theorem degenerate_worker_count_counterexample :
    spawned 0 = [] ∧ spawned (-1) = [] ∧
    multithreadedProcessing { grid_width := 3, grid_height := 3 }
      [[0, 0, 0], [1, 1, 1], [0, 0, 0]] 0 [] = none ∧
    multithreadedProcessing { grid_width := 3, grid_height := 3 }
      [[0, 0, 0], [1, 1, 1], [0, 0, 0]] (-1) [] = some [[0, 0, 0], [0, 0, 0], [0, 0, 0]] ∧
    updateGrid { grid_width := 3, grid_height := 3 }
      [[0, 0, 0], [1, 1, 1], [0, 0, 0]] = some [[0, 1, 0], [0, 1, 0], [0, 1, 0]] := by
  decide

/-- C8 (grid dimensions), the code at two command lines whose values all parse:
`-x 0` gives grid_width = 0, and `-x -7 -y 3` gives grid_width = -1 and
grid_height = 0; the values of `-x` and `-y` are stored as given, and no
default replaces them. -/
theorem grid_dimensions_not_clamped :
    NumericOK stoiDecimal ["-x", "0"] ∧
    mainSetup stoiDecimal ["life", "-x", "0"] =
      some { window_width := 0, grid_width := 0, grid_height := 120 } ∧
    NumericOK stoiDecimal ["-x", "-7", "-y", "3"] ∧
    mainSetup stoiDecimal ["life", "-x", "-7", "-y", "3"] =
      some { window_width := -7, window_height := 3, grid_width := -1, grid_height := 0 } := by
  decide

/-- C9 (worker-count clamp).  On every command line whose numeric option values
parse, parseCommandLine completes, and when the selected strategy is THRD or
OMP the worker count is 8 if the last `-n` value is below 2, that value if it
is at least 2, and the default 8 if there is no `-n` option; so it is at
least 2. -/
theorem worker_count_clamp (stoi : String → Option Int) (argv : List String)
    (hnum : NumericOK stoi argv.tail) :
    ∃ gl, parseCommandLine stoi argv {} = some gl ∧
      ((gl.processing_type = "THRD" ∨ gl.processing_type = "OMP") →
        (∀ s v, lastValue "-n" (optionPairs argv.tail) = some s → stoi s = some v →
          gl.num_threads = if v < 2 then 8 else v) ∧
        (lastValue "-n" (optionPairs argv.tail) = none → gl.num_threads = 8) ∧
        2 ≤ gl.num_threads) := by
  obtain ⟨gl1, _, hp, _, hs, hn, _⟩ := parseCommandLine_spec stoi argv hnum
  refine ⟨_, hp, ?_⟩
  intro hsel
  have hseq : ¬ gl1.processing_type = "SEQ" := by
    intro h
    rw [if_pos h] at hsel
    rcases hsel with h' | h'
    · rw [h] at h'; exact absurd h' (by decide)
    · rw [h] at h'; exact absurd h' (by decide)
  rw [if_neg hseq]
  refine ⟨hs, hn, ?_⟩
  cases hl : lastValue "-n" (optionPairs argv.tail) with
  | none => rw [hn hl]; decide
  | some s =>
    obtain ⟨v, hv⟩ := Option.isSome_iff_exists.mp
      (hnum ("-n", s) (lastValue_mem "-n" _ s hl) (show ("-n" : String) ≠ "-t" by decide))
    rw [hs s v hl hv]
    split <;> omega

/-- C9 at the command line `life -n 5 -t OMP -n 1`. -/
theorem worker_count_clamp_witness :
    ∃ gl, parseCommandLine stoiDecimal ["life", "-n", "5", "-t", "OMP", "-n", "1"] {} = some gl ∧
      ((gl.processing_type = "THRD" ∨ gl.processing_type = "OMP") →
        (∀ s v, lastValue "-n" (optionPairs ["-n", "5", "-t", "OMP", "-n", "1"]) = some s →
          stoiDecimal s = some v → gl.num_threads = if v < 2 then 8 else v) ∧
        (lastValue "-n" (optionPairs ["-n", "5", "-t", "OMP", "-n", "1"]) = none →
          gl.num_threads = 8) ∧
        2 ≤ gl.num_threads) :=
  worker_count_clamp stoiDecimal ["life", "-n", "5", "-t", "OMP", "-n", "1"] (by decide)

/-- C10 (strategy fallback).  On every command line on which parseCommandLine
completes (every one whose numeric option values parse), processing_type is
one of "SEQ", "THRD", "OMP" afterwards: the value of the last `-t` option when
that is one of the three, and "THRD" when it is another string or when no `-t`
option is given. -/
theorem strategy_fallback (stoi : String → Option Int) (argv : List String)
    (hnum : NumericOK stoi argv.tail) :
    ∃ gl, parseCommandLine stoi argv {} = some gl ∧
      (gl.processing_type = "SEQ" ∨ gl.processing_type = "THRD" ∨
        gl.processing_type = "OMP") ∧
      (∀ v, lastValue "-t" (optionPairs argv.tail) = some v →
        (v = "SEQ" ∨ v = "THRD" ∨ v = "OMP") → gl.processing_type = v) ∧
      (∀ v, lastValue "-t" (optionPairs argv.tail) = some v →
        ¬ (v = "SEQ" ∨ v = "THRD" ∨ v = "OMP") → gl.processing_type = "THRD") ∧
      (lastValue "-t" (optionPairs argv.tail) = none → gl.processing_type = "THRD") := by
  obtain ⟨gl1, _, hp, ht, _, _, _⟩ := parseCommandLine_spec stoi argv hnum
  refine ⟨_, hp, ?_⟩
  have hfin : (if gl1.processing_type = "SEQ" then { gl1 with num_threads := 1 }
      else gl1).processing_type = gl1.processing_type := by
    split <;> rfl
  rw [hfin, ht]
  unfold selectedType
  cases hl : lastValue "-t" (optionPairs argv.tail) with
  | none => simp
  | some w =>
    by_cases h1 : w = "SEQ"
    · subst h1; simp
    by_cases h2 : w = "THRD"
    · subst h2; simp
    by_cases h3 : w = "OMP"
    · subst h3; simp
    · simp [h1, h2, h3]

/-- C10 at the command line `life -t OMP -t fast`. -/
theorem strategy_fallback_witness :
    ∃ gl, parseCommandLine stoiDecimal ["life", "-t", "OMP", "-t", "fast"] {} = some gl ∧
      (gl.processing_type = "SEQ" ∨ gl.processing_type = "THRD" ∨
        gl.processing_type = "OMP") ∧
      (∀ v, lastValue "-t" (optionPairs ["-t", "OMP", "-t", "fast"]) = some v →
        (v = "SEQ" ∨ v = "THRD" ∨ v = "OMP") → gl.processing_type = v) ∧
      (∀ v, lastValue "-t" (optionPairs ["-t", "OMP", "-t", "fast"]) = some v →
        ¬ (v = "SEQ" ∨ v = "THRD" ∨ v = "OMP") → gl.processing_type = "THRD") ∧
      (lastValue "-t" (optionPairs ["-t", "OMP", "-t", "fast"]) = none →
        gl.processing_type = "THRD") :=
  strategy_fallback stoiDecimal ["life", "-t", "OMP", "-t", "fast"] (by decide)

/-- C11 (benchmark window reset).  Start the game loop at clock reading t0 and
run it for n iterations, n within the range of `int generations`.  The run
completes with generations = n, and on iteration i + 1 (fed the readings c):
the loop state before it has generations = i and is tracked by the window model
(generation counter, generations since the last report, window start time); a
report is emitted exactly when that makes 100 generations since the last
report, which is exactly when i + 1 is a multiple of 100; at a report the
window counter returns to 0 and the window start becomes the current reading;
on every other iteration the window start is unchanged. -/
theorem benchmark_window_reset (t0 : Int) (clock : List Readings)
    (hlen : (clock.length : Int) ≤ INT_MAX) :
    (∃ final, gameLoop (loopStart t0) clock = some final ∧
      final.generations = clock.length) ∧
    ∀ (i : Nat) (c : Readings), clock[i]? = some c →
      ∃ s s1 r,
        gameLoop (loopStart t0) (clock.take i) = some s ∧
        benchStep s c = some (s1, r) ∧
        gameLoop (loopStart t0) (clock.take (i + 1)) = some s1 ∧
        s.generations = i ∧ s1.generations = i + 1 ∧
        Tracks s (windowRun (windowInit t0) (clock.take i)) ∧
        Tracks s1 (windowRun (windowInit t0) (clock.take (i + 1))) ∧
        (r.isSome = true ↔ (windowRun (windowInit t0) (clock.take i)).window + 1 = 100) ∧
        (r.isSome = true ↔ (i + 1) % 100 = 0) ∧
        (r.isSome = true → s1.start = c.at_reset ∧
          (windowRun (windowInit t0) (clock.take (i + 1))).window = 0 ∧
          r = some { elapsed := c.at_end - s.start }) ∧
        (r = none → s1.start = s.start) := by
  have hinit : Tracks (loopStart t0) (windowInit t0) := ⟨rfl, rfl, rfl⟩
  have hz : (loopStart t0).generations = 0 := rfl
  refine ⟨?_, ?_⟩
  · obtain ⟨s', h1, _, h3⟩ :=
      gameLoop_tracks clock (loopStart t0) (windowInit t0) hinit (by rw [hz]) (by rw [hz]; omega)
    exact ⟨s', h1, by rw [h3, hz]; omega⟩
  · intro i c hc
    have hi : i < clock.length := (List.getElem?_eq_some.mp hc).1
    have htake : (clock.take i).length = i := by
      rw [List.length_take]; omega
    have hsucc : clock.take (i + 1) = clock.take i ++ [c] := by
      rw [List.take_succ, hc]; rfl
    obtain ⟨s, h1, ht, hg⟩ := gameLoop_tracks (clock.take i) (loopStart t0) (windowInit t0)
      hinit (by rw [hz]) (by rw [hz, htake]; omega)
    rw [hz, htake] at hg
    obtain ⟨s1, r, hb, _, ht1, hg1, hr1, hr2, hr3, hr4⟩ :=
      benchStep_tracks s (windowRun (windowInit t0) (clock.take i)) c ht (by omega)
    have hwin : windowRun (windowInit t0) (clock.take (i + 1)) =
        (windowStep (windowRun (windowInit t0) (clock.take i)) c).1 := by
      rw [hsucc]
      unfold windowRun
      rw [List.foldl_append]
      rfl
    have hloop : gameLoop (loopStart t0) (clock.take (i + 1)) = some s1 := by
      rw [hsucc]
      unfold gameLoop at h1 ⊢
      rw [List.foldlM_append, h1]
      simp [hb]
    refine ⟨s, s1, r, h1, hb, hloop, by omega, by omega, ht, by rw [hwin]; exact ht1, hr1, ?_, ?_,
      hr4⟩
    · rw [hr2]; omega
    · intro h
      rw [hwin]
      exact hr3 h

/-- C11 on a run of 100 iterations, at the hundredth one. -/
theorem benchmark_window_reset_witness :
    ((List.replicate 100 ({ at_end := 5, at_reset := 7 } : Readings)).length : Int) ≤ INT_MAX ∧
    ∃ s s1 r,
      gameLoop (loopStart 0)
        ((List.replicate 100 ({ at_end := 5, at_reset := 7 } : Readings)).take 99) = some s ∧
      benchStep s { at_end := 5, at_reset := 7 } = some (s1, r) ∧
      gameLoop (loopStart 0)
        ((List.replicate 100 ({ at_end := 5, at_reset := 7 } : Readings)).take (99 + 1)) =
          some s1 ∧
      s.generations = (99 : Nat) ∧ s1.generations = (99 : Nat) + 1 ∧
      Tracks s (windowRun (windowInit 0)
        ((List.replicate 100 ({ at_end := 5, at_reset := 7 } : Readings)).take 99)) ∧
      Tracks s1 (windowRun (windowInit 0)
        ((List.replicate 100 ({ at_end := 5, at_reset := 7 } : Readings)).take (99 + 1))) ∧
      (r.isSome = true ↔ (windowRun (windowInit 0)
        ((List.replicate 100 ({ at_end := 5, at_reset := 7 } : Readings)).take 99)).window + 1
          = 100) ∧
      (r.isSome = true ↔ (99 + 1) % 100 = 0) ∧
      (r.isSome = true → s1.start = ({ at_end := 5, at_reset := 7 } : Readings).at_reset ∧
        (windowRun (windowInit 0)
          ((List.replicate 100 ({ at_end := 5, at_reset := 7 } : Readings)).take (99 + 1))).window
            = 0 ∧
        r = some { elapsed := ({ at_end := 5, at_reset := 7 } : Readings).at_end - s.start }) ∧
      (r = none → s1.start = s.start) :=
  ⟨by simp [INT_MAX],
    (benchmark_window_reset 0 (List.replicate 100 { at_end := 5, at_reset := 7 })
      (by simp [INT_MAX])).2 99 { at_end := 5, at_reset := 7 } (by simp)⟩

/-- C12 (dimension preservation).  For every well-formed grid of 0/1 cells
(H rows of W cells, in particular every H >= 1 and W >= 1), every worker count
k >= 1 and every order of the thread workers and of the OpenMP iterations,
each of updateGrid, multithreadedProcessing and ompProcessing completes with a
grid of exactly H rows, every row of exactly W cells: the height and the width
of the input. -/
theorem dimension_preservation (gl : Globals) (g : Grid) (k : Int)
    (order : List Int) (sched : List (Int × Int))
    (hg : WellFormed gl g) (_hb : Binary g) (hk : 1 ≤ k)
    (ho : order.Perm (spawned k)) (hs : sched.Perm (ompIterations gl)) :
    ∃ a b c, updateGrid gl g = some a ∧
      multithreadedProcessing gl g k order = some b ∧
      ompProcessing gl g k sched = some c ∧
      ((a.length : Int) = gl.grid_height ∧ a.length = g.length ∧
        ∀ row ∈ a, (row.length : Int) = gl.grid_width ∧ ∀ r0 ∈ g, row.length = r0.length) ∧
      ((b.length : Int) = gl.grid_height ∧ b.length = g.length ∧
        ∀ row ∈ b, (row.length : Int) = gl.grid_width ∧ ∀ r0 ∈ g, row.length = r0.length) ∧
      ((c.length : Int) = gl.grid_height ∧ c.length = g.length ∧
        ∀ row ∈ c, (row.length : Int) = gl.grid_width ∧ ∀ r0 ∈ g, row.length = r0.length) := by
  have same : ∀ z : Grid, WellFormed gl z →
      (z.length : Int) = gl.grid_height ∧ z.length = g.length ∧
        ∀ row ∈ z, (row.length : Int) = gl.grid_width ∧ ∀ r0 ∈ g, row.length = r0.length := by
    intro z hz
    refine ⟨hz.2.2.1, ?_, ?_⟩
    · have := hz.2.2.1
      have := hg.2.2.1
      omega
    · intro row hrow
      refine ⟨hz.2.2.2 row hrow, ?_⟩
      intro r0 hr0
      have := hz.2.2.2 row hrow
      have := hg.2.2.2 r0 hr0
      omega
  obtain ⟨a, ha, hwa, _⟩ := updateGrid_spec gl g hg
  obtain ⟨b, hb, hwb, _⟩ := multithreadedProcessing_spec gl g k order hg hk ho
  obtain ⟨c, hc, hwc, _⟩ := ompProcessing_spec gl g k sched hg hk hs
  exact ⟨a, b, c, ha, hb, hc, same a hwa, same b hwb, same c hwc⟩

/-- C12 at a 2 x 3 grid with 3 workers (more workers than rows) taking effect
in the order 2, 0, 1. -/
theorem dimension_preservation_witness :
    ∃ a b c, updateGrid { grid_width := 3, grid_height := 2 } [[1, 0, 1], [0, 1, 1]] = some a ∧
      multithreadedProcessing { grid_width := 3, grid_height := 2 }
        [[1, 0, 1], [0, 1, 1]] 3 [2, 0, 1] = some b ∧
      ompProcessing { grid_width := 3, grid_height := 2 } [[1, 0, 1], [0, 1, 1]] 3
        (ompIterations { grid_width := 3, grid_height := 2 }).reverse = some c ∧
      ((a.length : Int) = 2 ∧ a.length = [[(1 : Int), 0, 1], [0, 1, 1]].length ∧
        ∀ row ∈ a, (row.length : Int) = 3 ∧
          ∀ r0 ∈ [[(1 : Int), 0, 1], [0, 1, 1]], row.length = r0.length) ∧
      ((b.length : Int) = 2 ∧ b.length = [[(1 : Int), 0, 1], [0, 1, 1]].length ∧
        ∀ row ∈ b, (row.length : Int) = 3 ∧
          ∀ r0 ∈ [[(1 : Int), 0, 1], [0, 1, 1]], row.length = r0.length) ∧
      ((c.length : Int) = 2 ∧ c.length = [[(1 : Int), 0, 1], [0, 1, 1]].length ∧
        ∀ row ∈ c, (row.length : Int) = 3 ∧
          ∀ r0 ∈ [[(1 : Int), 0, 1], [0, 1, 1]], row.length = r0.length) :=
  dimension_preservation { grid_width := 3, grid_height := 2 } [[1, 0, 1], [0, 1, 1]] 3
    [2, 0, 1] (ompIterations { grid_width := 3, grid_height := 2 }).reverse
    (by decide) (by decide) (by decide) (by decide) (List.reverse_perm _)

end GameOfLife
